import Mathlib

/-!
Verification of the ASRS HTML extractor (`asrs_html_to_json.py`) and the
HFACS batch classifier (`process_asrs_hfacs.py`).

The Python code is shallowly embedded: every string operation is
implemented over `List Char` with structural (or fuel-based) recursion so
that concrete runs reduce inside the kernel.  Fallible Python code
(statements that can raise) is embedded in `Except String`.
-/

namespace Asrs

/-- Python whitespace characters as used by `str.strip` / `str.split()`
(ASCII subset: space, tab, newline, carriage return, vertical tab,
form feed). -/
def isSpc (c : Char) : Bool :=
  c = ' ' || c = '\t' || c = '\n' || c = '\r' || c = '\x0b' || c = '\x0c'

/-- Strip leading and trailing whitespace from a character list
(model of Python `str.strip()`). -/
def stripL (l : List Char) : List Char :=
  ((l.dropWhile isSpc).reverse.dropWhile isSpc).reverse

/-- Model of Python `str.strip()`. -/
def pyStrip (s : String) : String := ⟨stripL s.data⟩

/-- Prefix test: `startsWithL l p` is true when `p` is a prefix of `l`. -/
def startsWithL : List Char → List Char → Bool
  | _, [] => true
  | [], _ :: _ => false
  | a :: as, b :: bs => a = b && startsWithL as bs

/-- Substring test: `hasSub sub l` is true when `sub` occurs as a contiguous substring of
`l` (model of Python `sub in s`). -/
def hasSub (sub : List Char) : List Char → Bool
  | [] => startsWithL [] sub
  | c :: rest => startsWithL (c :: rest) sub || hasSub sub rest

/-- Model of Python `sub in s` on strings. -/
def containsSub (s sub : String) : Bool := hasSub sub.data s.data

/-- Fuel-based worker for `splitOnL`; the fuel is the length of the input,
which always suffices since each step consumes at least one character. -/
def splitOnFuel (sep : List Char) : Nat → List Char → List Char → List (List Char)
  | 0, l, cur => [cur.reverse ++ l]
  | _ + 1, [], cur => [cur.reverse]
  | fuel + 1, c :: rest, cur =>
    if startsWithL (c :: rest) sep then
      cur.reverse :: splitOnFuel sep fuel ((c :: rest).drop sep.length) []
    else
      splitOnFuel sep fuel rest (c :: cur)

/-- Split a character list on every non-overlapping occurrence of `sep`,
left to right (model of Python `s.split(sep)` for a non-empty separator). -/
def splitOnL (l sep : List Char) : List (List Char) :=
  if sep = [] then [l] else splitOnFuel sep l.length l []

/-- Model of Python `s.split(sep)` on strings. -/
def pySplitOn (s sep : String) : List String :=
  (splitOnL s.data sep.data).map (fun l => ⟨l⟩)

/-- Join character lists with a separator (model of `sep.join(...)`). -/
def intercalateL (sep : List Char) : List (List Char) → List Char
  | [] => []
  | [x] => x
  | x :: y :: rest => x ++ sep ++ intercalateL sep (y :: rest)

/-- Model of Python `sep.join(list_of_str)`. -/
def pyJoin (sep : String) (l : List String) : String :=
  ⟨intercalateL sep.data (l.map String.data)⟩

/-- Worker for `pySplitWs`: split at every whitespace character. -/
def splitWsAux : List Char → List Char → List String
  | [], cur => [⟨cur.reverse⟩]
  | c :: rest, cur =>
    if isSpc c then (⟨cur.reverse⟩ : String) :: splitWsAux rest []
    else splitWsAux rest (c :: cur)

/-- Model of Python `s.split()` (no argument): split on whitespace runs and
discard empty pieces. -/
def pySplitWs (s : String) : List String :=
  (splitWsAux s.data []).filter (fun t => t ≠ "")

/-- Drop all trailing `':'` characters (model of Python `s.rstrip(":")`). -/
def rstripColon (s : String) : String :=
  ⟨(s.data.reverse.dropWhile (fun c => c = ':')).reverse⟩

/-! ## The extractor's data model

A Python record is a dict from strings to either the identifier string or a
section dict; a section dict maps field labels to a scalar string or a list
of strings.  Dicts are embedded as insertion-ordered association lists:
assignment to an existing key keeps its position, a new key is appended. -/

/-- A value inside a section dict: scalar string or list of strings
(the duplicate-promotion states of `_extract_records`). -/
inductive Val where
  | str (s : String)
  | list (l : List String)

/-- A top-level value of a record dict: the identifier string stored under
`"ACN"`, or a section dict. -/
inductive RVal where
  | str (s : String)
  | sect (d : List (String × Val))

/-- A section dict. -/
abbrev Sect := List (String × Val)

/-- A record dict. -/
abbrev Rec := List (String × RVal)

/-- Ordered-dict lookup (model of `key in d` / `d[key]`). -/
def alookup {α : Type} : List (String × α) → String → Option α
  | [], _ => none
  | (k', v) :: rest, k => if k' = k then some v else alookup rest k

/-- Ordered-dict assignment `d[key] = v`: overwrite in place if the key is
present, append otherwise. -/
def aset {α : Type} : List (String × α) → String → α → List (String × α)
  | [], k, v => [(k, v)]
  | (k', v') :: rest, k, v =>
    if k' = k then (k', v) :: rest else (k', v') :: aset rest k v

/-- One flat marker node of the printable-view document: the three
recognised `<p>` classes, or anything else.  A heading or section node
carries its plain text (`get_text(" ", strip=True)` already applied); a
data node carries the raw inner markup (`tag.decode_contents()`). -/
inductive Node where
  | heading (text : String)
  | sectionMark (text : String)
  | dataBlock (raw : String)
  | other

/-! ## `_parse_acndata_block` -/

/-- Split a raw line into its text fragments: a `<` opens a tag which runs
to the next `>`; tags separate fragments and contribute no text.  Models
how `BeautifulSoup(line, "html.parser")` decomposes a fragment into
navigable strings.  First argument: `true` while inside a tag. -/
def frags : Bool → List Char → List Char → List (List Char)
  | _, [], cur => [cur.reverse]
  | false, c :: rest, cur =>
    if c = '<' then cur.reverse :: frags true rest []
    else frags false rest (c :: cur)
  | true, c :: rest, cur =>
    if c = '>' then frags false rest cur
    else frags true rest cur

/-- Join non-empty stripped fragments with single spaces. -/
def joinFrags : List (List Char) → List Char
  | [] => []
  | [x] => x
  | x :: y :: rest => x ++ ' ' :: joinFrags (y :: rest)

/-- Model of `BeautifulSoup(line, "html.parser").get_text(" ", strip=True)`:
strip each text fragment, drop the empty ones, join the rest with `" "`. -/
def pyGetText (line : String) : String :=
  ⟨joinFrags (((frags false line.data []).map stripL).filter (fun l => l ≠ []))⟩

/-- The per-line part of `_parse_acndata_block`: keep the raw lines whose
`strip()` is non-empty, and extract plain text from each kept line. -/
def parseLines (raws : List String) : List String :=
  (raws.filter (fun l => pyStrip l ≠ "")).map pyGetText

/-- Model of `_parse_acndata_block`: split the tag's raw contents on the `"<br>"`
line-break marker, then clean each kept line (lines 32-39). -/
def parseAcndataBlock (raw : String) : List String :=
  parseLines (pySplitOn raw "<br>")

/-! ## `_extract_records` -/

/-- Identifier extraction from the heading text (lines 48-50):
`acn_text.split(":", 1)[1]` is everything after the first colon. -/
def afterFirstColon (s : String) : String :=
  pyJoin ":" (pySplitOn s ":").tail

/-- Build the initial record from the heading text (lines 45-50).  When the
text has a colon but only whitespace after it, `[0]` on the empty token
list raises `IndexError`. -/
def initRecord (acnText : String) : Except String Rec :=
  if containsSub acnText ":" then
    match pySplitWs (afterFirstColon acnText) with
    | [] => .error "IndexError: list index out of range"
    | tok :: _ => .ok [("ACN", RVal.str tok)]
  else .ok []

/-- Split a cleaned line at the first `" : "` separator and strip both
sides; `none` when the separator is absent (lines 64-65). -/
def kvSplit (line : String) : Option (String × String) :=
  match pySplitOn line " : " with
  | [] => none
  | [_] => none
  | k :: rest => some (pyStrip k, pyStrip (pyJoin " : " rest))

/-- Duplicate-preserving key/value insertion into a section dict
(lines 66-73): first occurrence stores the scalar, the second makes a
two-element list, later ones append. -/
def kvInsert (sec : Sect) (key val : String) : Sect :=
  match alookup sec key with
  | some (Val.list l) => aset sec key (Val.list (l ++ [val]))
  | some (Val.str u) => aset sec key (Val.list [u, val])
  | none => aset sec key (Val.str val)

/-- Narrative accumulation `record[s].setdefault("text", []).append(line)`
(line 75).  When a key/value line already stored a scalar under `"text"`,
Python raises `AttributeError` on `.append`. -/
def appendText (sec : Sect) (line : String) : Except String Sect :=
  match alookup sec "text" with
  | none => .ok (aset sec "text" (Val.list [line]))
  | some (Val.list l) => .ok (aset sec "text" (Val.list (l ++ [line])))
  | some (Val.str _) =>
    .error "AttributeError: str object has no attribute append"

/-- Classify one cleaned line and apply it to the current section
(lines 63-75). -/
def applyLine (sec : Sect) (line : String) : Except String Sect :=
  match kvSplit line with
  | some (k, v) => .ok (kvInsert sec k v)
  | none => appendText sec line

/-- Apply all cleaned lines of one data block, in order. -/
def applyLines : Sect → List String → Except String Sect
  | sec, [] => .ok sec
  | sec, l :: rest => do
    let sec' ← applyLine sec l
    applyLines sec' rest

/-- One step of the sibling walk (lines 53-75).  The state is the record
dict together with the current section name (`None` before the first
section marker; a name that is the empty string is falsy in Python, so
data is skipped for it). -/
def extractStep (st : Rec × Option String) (node : Node) :
    Except String (Rec × Option String) :=
  match node with
  | Node.sectionMark t =>
    let name := rstripColon t
    .ok (aset st.1 name (RVal.sect []), some name)
  | Node.dataBlock raw =>
    match st.2 with
    | some name =>
      if name = "" then .ok st
      else
        match alookup st.1 name with
        | some (RVal.sect d) => do
          let d' ← applyLines d (parseAcndataBlock raw)
          .ok (aset st.1 name (RVal.sect d'), st.2)
        | _ => .error "TypeError: record entry is not a dict"
    | none => .ok st
  | _ => .ok st

/-- The sibling walk over one record's body. -/
def runBody (st : Rec × Option String) : List Node →
    Except String (Rec × Option String)
  | [] => .ok st
  | n :: rest => do
    let st' ← extractStep st n
    runBody st' rest

/-- Python `"\n".join(s)` over a *string* iterates its characters
(the flatten step applied to a scalar). -/
def pyJoinChars (s : String) : String :=
  pyJoin "\n" (s.data.map (fun c => ⟨[c]⟩))

/-- Flatten step for one section (lines 77-80): a `"text"` entry holding a
list is joined with newlines; one holding a scalar string has its
characters joined. -/
def flattenSection (sec : Sect) : Sect :=
  match alookup sec "text" with
  | some (Val.list l) => aset sec "text" (Val.str (pyJoin "\n" l))
  | some (Val.str s) => aset sec "text" (Val.str (pyJoinChars s))
  | none => sec

/-- Flatten step over the whole record (lines 77-80); non-dict values are
left alone. -/
def flattenRecord (r : Rec) : Rec :=
  r.map (fun p =>
    match p.2 with
    | RVal.sect d => (p.1, RVal.sect (flattenSection d))
    | v => (p.1, v))

/-- Build one record from its heading text and body nodes (lines 44-82). -/
def buildRecord (acnText : String) (body : List Node) : Except String Rec := do
  let r0 ← initRecord acnText
  let st ← runBody (r0, none) body
  .ok (flattenRecord st.1)

/-- Group the document's nodes into `(heading text, body)` pairs: each
heading opens a record whose body runs to the next heading (the
`find_all` / `find_next_siblings` / `break` structure of lines 44-56);
nodes before the first heading are ignored. -/
def splitRecordsAux : Option (String × List Node) → List Node →
    List (String × List Node)
  | none, [] => []
  | some (t, acc), [] => [(t, acc.reverse)]
  | cur, n :: rest =>
    match n, cur with
    | Node.heading t', none => splitRecordsAux (some (t', [])) rest
    | Node.heading t', some (t, acc) =>
      (t, acc.reverse) :: splitRecordsAux (some (t', [])) rest
    | _, none => splitRecordsAux none rest
    | m, some (t, acc) => splitRecordsAux (some (t, m :: acc)) rest

/-- Build the records of the grouped `(heading, body)` pairs in order. -/
def buildRecords : List (String × List Node) → Except String (List Rec)
  | [] => .ok []
  | p :: ps => do
    let r ← buildRecord p.1 p.2
    let rs ← buildRecords ps
    .ok (r :: rs)

/-- Model of `_extract_records`: one record per heading, in document order. -/
def extractRecords (nodes : List Node) : Except String (List Rec) :=
  buildRecords (splitRecordsAux none nodes)

/-! ## The classifier's data model (`process_asrs_hfacs.py`)

Records of the incidents JSON file are embedded as Python values `PyVal`;
the remote model is an external collaborator, embedded as a function from
the prompt string to a transport-level outcome `SvcResult`. -/

/-- A Python/JSON value, as produced by `json.load` / `json.loads`. -/
inductive PyVal where
  | vnull
  | vbool (b : Bool)
  | vnum (n : Int)
  | vstr (s : String)
  | vlist (xs : List PyVal)
  | vdict (kvs : List (String × PyVal))

mutual

/-- Structural equality on Python values (model of Python `==`, used for
dict-key lookups). -/
def pvEq : PyVal → PyVal → Bool
  | PyVal.vnull, PyVal.vnull => true
  | PyVal.vbool a, PyVal.vbool b => a = b
  | PyVal.vnum a, PyVal.vnum b => a = b
  | PyVal.vstr a, PyVal.vstr b => a = b
  | PyVal.vlist xs, PyVal.vlist ys => pvListEq xs ys
  | PyVal.vdict kvs, PyVal.vdict kvs' => pvDictEq kvs kvs'
  | _, _ => false

/-- Elementwise `pvEq` on lists. -/
def pvListEq : List PyVal → List PyVal → Bool
  | [], [] => true
  | x :: xs, y :: ys => pvEq x y && pvListEq xs ys
  | _, _ => false

/-- Elementwise `pvEq` on dict entries. -/
def pvDictEq : List (String × PyVal) → List (String × PyVal) → Bool
  | [], [] => true
  | (k, v) :: kvs, (k', v') :: kvs' => k = k' && pvEq v v' && pvDictEq kvs kvs'
  | _, _ => false

end

/-- Python truthiness of a value (`if not narrative`). -/
def pyTruthy : PyVal → Bool
  | PyVal.vnull => false
  | PyVal.vbool b => b
  | PyVal.vnum n => n ≠ 0
  | PyVal.vstr s => s ≠ ""
  | PyVal.vlist xs => !xs.isEmpty
  | PyVal.vdict kvs => !kvs.isEmpty

/-- An incident record of the JSON file: a Python dict. -/
abbrev PRec := List (String × PyVal)

/-! ### A model of `json.loads`

A fuel-based recursive-descent JSON parser covering the fragment relevant
here: `null`, booleans, integers, strings with simple escapes, arrays and
objects.  Inputs outside this fragment (floats, `\u` escapes) are rejected,
which for the claims only matters as "not parsed". -/

/-- JSON insignificant whitespace. -/
def isJsonWs (c : Char) : Bool := c = ' ' || c = '\t' || c = '\r' || c = '\n'

/-- Skip insignificant whitespace. -/
def skipWs (l : List Char) : List Char := l.dropWhile isJsonWs

/-- Decode one string escape character. -/
def escChar (c : Char) : Option Char :=
  if c = '"' || c = '/' || c = '\\' then some c
  else if c = 'n' then some '\n'
  else if c = 't' then some '\t'
  else if c = 'r' then some '\r'
  else none

/-- Parse the body of a JSON string (after the opening quote). -/
def jStrAux : List Char → List Char → Option (String × List Char)
  | [], _ => none
  | '"' :: rest, acc => some (⟨acc.reverse⟩, rest)
  | '\\' :: c :: rest, acc =>
    match escChar c with
    | some e => jStrAux rest (e :: acc)
    | none => none
  | '\\' :: [], _ => none
  | c :: rest, acc => jStrAux rest (c :: acc)

/-- Numeric value of a digit list. -/
def digitsToNat (ds : List Char) : Nat :=
  ds.foldl (fun a c => a * 10 + (c.toNat - 48)) 0

/-- Parse a JSON integer; floats and exponents are rejected. -/
def jNum (cs : List Char) : Option (Int × List Char) :=
  let neg := startsWithL cs ['-']
  let cs' := if neg then cs.drop 1 else cs
  let ds := cs'.takeWhile Char.isDigit
  let rest := cs'.dropWhile Char.isDigit
  if ds = [] then none
  else
    match rest with
    | '.' :: _ => none
    | 'e' :: _ => none
    | 'E' :: _ => none
    | _ =>
      let n : Int := Int.ofNat (digitsToNat ds)
      some (if neg then -n else n, rest)

mutual

/-- Parse one JSON value. -/
def jVal : Nat → List Char → Option (PyVal × List Char)
  | 0, _ => none
  | fuel + 1, cs =>
    match skipWs cs with
    | [] => none
    | c :: rest =>
      if c = '"' then
        match jStrAux rest [] with
        | some (s, rest') => some (PyVal.vstr s, rest')
        | none => none
      else if c = '[' then
        match skipWs rest with
        | ']' :: rest' => some (PyVal.vlist [], rest')
        | cs' =>
          match jItems fuel cs' [] with
          | some (xs, rest') => some (PyVal.vlist xs, rest')
          | none => none
      else if c = '{' then
        match skipWs rest with
        | '}' :: rest' => some (PyVal.vdict [], rest')
        | cs' =>
          match jPairs fuel cs' [] with
          | some (kvs, rest') => some (PyVal.vdict kvs, rest')
          | none => none
      else if startsWithL (c :: rest) "null".data then
        some (PyVal.vnull, rest.drop 3)
      else if startsWithL (c :: rest) "true".data then
        some (PyVal.vbool true, rest.drop 3)
      else if startsWithL (c :: rest) "false".data then
        some (PyVal.vbool false, rest.drop 4)
      else
        match jNum (c :: rest) with
        | some (n, rest') => some (PyVal.vnum n, rest')
        | none => none

/-- Parse the comma-separated items of a non-empty JSON array. -/
def jItems : Nat → List Char → List PyVal → Option (List PyVal × List Char)
  | 0, _, _ => none
  | fuel + 1, cs, acc =>
    match jVal fuel cs with
    | none => none
    | some (v, rest) =>
      match skipWs rest with
      | ',' :: rest' => jItems fuel rest' (v :: acc)
      | ']' :: rest' => some ((v :: acc).reverse, rest')
      | _ => none

/-- Parse the comma-separated pairs of a non-empty JSON object. -/
def jPairs : Nat → List Char → List (String × PyVal) →
    Option (List (String × PyVal) × List Char)
  | 0, _, _ => none
  | fuel + 1, cs, acc =>
    match skipWs cs with
    | '"' :: rest =>
      (match jStrAux rest [] with
       | none => none
       | some (k, rest') =>
         match skipWs rest' with
         | ':' :: rest'' =>
           (match jVal fuel rest'' with
            | none => none
            | some (v, rest3) =>
              match skipWs rest3 with
              | ',' :: rest4 => jPairs fuel rest4 ((k, v) :: acc)
              | '}' :: rest4 => some (((k, v) :: acc).reverse, rest4)
              | _ => none)
         | _ => none)
    | _ => none

end

/-- Model of Python `json.loads`: parse one value and require the rest of
the input to be whitespace. -/
def pyJsonLoads (s : String) : Option PyVal :=
  match jVal (2 * s.data.length + 2) s.data with
  | some (v, rest) => if skipWs rest = [] then some v else none
  | none => none

/-! ### `get_hfacs_classification_from_llm` -/

/-- The transport-level outcome of one call to the external service
(`client.responses.create`): a response body with its output token count,
an `openai.APIError`, or any other exception. -/
inductive SvcResult where
  | ok (outputText : String) (outputTokens : Nat)
  | apiError (msg : String)
  | exn (msg : String)

/-- Model of `HFACS_PROMPT_TEMPLATE.format(narrative_text=...)`.  The
template's fixed prose is abbreviated; what matters is that the narrative
is embedded between fixed prefix and suffix text (lines 16-126, 231). -/
def promptFor (narrative : String) : String :=
  "HFACS classification task. Narrative:\n---\n" ++ narrative ++
    "\n---\nProvide only the JSON list of classifications."

/-- Abstract model of the tiktoken prompt token count (lines 152-155); no
claim depends on its value. -/
def countTokens (s : String) : Nat := s.data.length

/-- An error descriptor carrying the raw response
(`{"error": ..., "raw_output": ...}`). -/
def errEntry (msg raw : String) : PyVal :=
  PyVal.vdict [("error", PyVal.vstr msg), ("raw_output", PyVal.vstr raw)]

/-- An error descriptor without a raw response (`{"error": ...}`). -/
def errEntryNoRaw (msg : String) : PyVal :=
  PyVal.vdict [("error", PyVal.vstr msg)]

/-- The code-fence stripping of lines 257-260: if the stripped response
starts with a fence, cut out the fenced body. -/
def stripFences (t : String) : String :=
  if startsWithL (pyStrip t).data "```json".data then
    pyStrip (((pySplitOn ((pySplitOn t "```json").getD 1 "") "```").headD ""))
  else if startsWithL (pyStrip t).data "```".data then
    pyStrip ((pySplitOn t "```").getD 1 "")
  else t

/-- Model of `get_hfacs_classification_from_llm` (lines 219-276).  Returns the
classification list with the token counts, paired with the trace of
service calls issued (the list of prompts sent), so that "never calls the
service" is expressible. -/
def get_hfacs_classification_from_llm (svc : String → SvcResult)
    (narrative_text : String) : (List PyVal × Nat × Nat) × List String :=
  if narrative_text = "" || pyStrip narrative_text = "" then (([], 0, 0), [])
  else
    let full_prompt := promptFor narrative_text
    let inTok := countTokens full_prompt
    match svc full_prompt with
    | SvcResult.ok text outTok =>
      let body := stripFences text
      (match pyJsonLoads body with
       | some (PyVal.vlist xs) => ((xs, inTok, outTok), [full_prompt])
       | some _ =>
         (([errEntry "LLM did not return a list" body], inTok, outTok),
          [full_prompt])
       | none =>
         (([errEntry "Failed to parse LLM JSON response" body], inTok, outTok),
          [full_prompt]))
    | SvcResult.apiError e =>
      (([errEntryNoRaw ("OpenAI API Error: " ++ e)], inTok, 0), [full_prompt])
    | SvcResult.exn e =>
      (([errEntryNoRaw ("Unexpected error: " ++ e)], inTok, 0), [full_prompt])

/-! ### The batch loop of `main` (lines 356-431) -/

/-- The narrative value for a record (lines 399-404): a dict field yields
its `"text"` entry (default `""`), a string field is taken as is,
anything else leaves the initial `""`. -/
def narrativeValue (r : PRec) (field : String) : PyVal :=
  match alookup r field with
  | some (PyVal.vdict d) => (alookup d "text").getD (PyVal.vstr "")
  | some (PyVal.vstr s) => PyVal.vstr s
  | _ => PyVal.vstr ""

/-- Python `"\n".join(...)` over a list raises `TypeError` unless every
element is a string. -/
def joinStrs (xs : List PyVal) : Except String String :=
  match xs with
  | [] => .ok ""
  | PyVal.vstr s :: rest => do
    let r ← joinStrs rest
    .ok (if rest.isEmpty then s else s ++ "\n" ++ r)
  | _ => .error "TypeError: sequence item is not a str"

/-- Lines 406-407: a list-valued narrative is newline-joined. -/
def coerceNarrative (v : PyVal) : Except String PyVal :=
  match v with
  | PyVal.vlist xs => do
    let s ← joinStrs xs
    .ok (PyVal.vstr s)
  | v => .ok v

/-- Line 409: `not narrative or not narrative.strip()`.  A falsy value is
blank; a truthy non-string has no `.strip` and raises `AttributeError`. -/
def blankCheck (v : PyVal) : Except String Bool :=
  if pyTruthy v = false then .ok true
  else
    match v with
    | PyVal.vstr s => .ok (pyStrip s = "")
    | _ => .error "AttributeError: object has no attribute strip"

/-- Process one already-located target record (lines 399-418): extract its
narrative; a blank narrative gets the empty classification list without a
service call, otherwise the service result is attached under
`"hfacs_classification"`.  Also returns the trace of service calls. -/
def processIncident (svc : String → SvcResult) (field : String) (r : PRec) :
    Except String (PRec × List String) := do
  let v ← coerceNarrative (narrativeValue r field)
  let b ← blankCheck v
  if b then .ok (aset r "hfacs_classification" (PyVal.vlist []), [])
  else
    match v with
    | PyVal.vstr s =>
      let out := get_hfacs_classification_from_llm svc s
      .ok (aset r "hfacs_classification" (PyVal.vlist out.1.1), out.2)
    | _ => .error "unreachable: truthy non-string passed the blank check"

/-- Lookup in the identifier map (Python `dict` keyed by the `"ACN"`
values, compared with `==`). -/
def mlookup (m : List (PyVal × Nat)) (a : PyVal) : Option Nat :=
  match m with
  | [] => none
  | (k, i) :: rest => if pvEq k a then some i else mlookup rest a

/-- Build the identifier map of lines 370-372, lookup-equivalent to the
Python dict: `map[acn]` is the *last* index whose record carries that
`"ACN"` value (later assignments overwrite earlier ones). -/
def buildMapFrom : Nat → List PRec → List (PyVal × Nat)
  | _, [] => []
  | i, r :: rs =>
    let rest := buildMapFrom (i + 1) rs
    match alookup r "ACN" with
    | some a => if (mlookup rest a).isSome then rest else (a, i) :: rest
    | none => rest

/-- The `has_acn` check (line 368): every record of the master list has an `"ACN"`
key. -/
def hasAcnAll (all : List PRec) : Bool :=
  all.all (fun r => (alookup r "ACN").isSome)

/-- Target resolution for one incident of the slice (lines 388-396):
by identifier when `has_acn`, by original index otherwise; `none` means
the incident is skipped with a warning. -/
def findTarget (hasAcn : Bool) (m : List (PyVal × Nat)) (inc : PRec)
    (origIdx : Nat) (allLen : Nat) : Option Nat :=
  if hasAcn then
    mlookup m ((alookup inc "ACN").getD PyVal.vnull)
  else if origIdx < allLen then some origIdx
  else none

/-- One iteration of the main loop (lines 380-426) on the master list. -/
def mainStep (svc : String → SvcResult) (field : String) (hasAcn : Bool)
    (m : List (PyVal × Nat)) (all : List PRec) (origIdx : Nat) (inc : PRec) :
    Except String (List PRec) :=
  match findTarget hasAcn m inc origIdx all.length with
  | none => .ok all
  | some i => do
    let out ← processIncident svc field (all.getD i [])
    .ok (all.set i out.1)

/-- The main loop over the selected slice, carrying the original index. -/
def runSlice (svc : String → SvcResult) (field : String) (hasAcn : Bool)
    (m : List (PyVal × Nat)) : List PRec → Nat → List PRec →
    Except String (List PRec)
  | all, _, [] => .ok all
  | all, i, inc :: rest => do
    let all' ← mainStep svc field hasAcn m all i inc
    runSlice svc field hasAcn m all' (i + 1) rest

/-- Python `incidents[s:e]` for `0 ≤ s` and `e ≤ len`. -/
def pySlice {α : Type} (l : List α) (s e : Nat) : List α :=
  (l.drop s).take (e - s)

/-- One classifier run (lines 356-431): the master list is the loaded
output file when it exists, else a copy of the input; the identifier map
and `has_acn` are computed once from the master list; then the selected
input slice is processed in order.  The returned list is what the final
save writes.  Range validation (lines 308-316) is reflected as side
conditions in the theorems. -/
def mainRun (svc : String → SvcResult) (field : String)
    (incidents : List PRec) (existing : Option (List PRec)) (s e : Nat) :
    Except String (List PRec) :=
  let all := existing.getD incidents
  let hasAcn := hasAcnAll all
  let m := buildMapFrom 0 all
  runSlice svc field hasAcn m all s (pySlice incidents s e)

/-! ## Predicates used by the theorems -/

/-- A heading text on which identifier extraction does not raise: either no
colon, or at least one whitespace-delimited token after the first colon. -/
def goodHeadingText (t : String) : Bool :=
  !containsSub t ":" || !(pySplitWs (afterFirstColon t)).isEmpty

/-- A cleaned line whose key/value label (if any) is not the reserved word
`"text"`. -/
def lineNotTextLabel (l : String) : Bool :=
  match kvSplit l with
  | some (k, _) => k != "text"
  | none => true

/-- No section marker in the body is named `"ACN"` (such a marker would
overwrite the identifier entry of the record dict). -/
def noAcnSection (body : List Node) : Bool :=
  body.all (fun n =>
    match n with
    | Node.sectionMark t => rstripColon t != "ACN"
    | _ => true)

/-- The value of the narrative accumulator for a list of narrative lines:
absent while empty, a list value afterwards. -/
def optText : List String → Option Val
  | [] => none
  | l => some (Val.list l)

/-- The three states the reserved `"text"` entry of the current section
dict can be in: absent, holding a scalar string (set by a `text : v`
key/value line as the section's first text event), or holding a list. -/
inductive TextSt where
  | absent
  | scalar
  | listy

/-- How one cleaned line moves the `"text"` entry's state: a `text`-labeled
key/value line promotes absent to scalar and anything else to a list; a
narrative line appends to an absent-or-list entry but *raises*
(`.append` on a scalar, line 75) when the entry holds a scalar —
the `none` outcome. -/
def lineStep (ts : TextSt) (line : String) : Option TextSt :=
  match kvSplit line with
  | some (k, _) =>
    if k = "text" then
      some (match ts with
            | TextSt.absent => TextSt.scalar
            | _ => TextSt.listy)
    else some ts
  | none =>
    match ts with
    | TextSt.scalar => none
    | _ => some TextSt.listy

/-- Run `lineStep` over a block's cleaned lines. -/
def linesStep : TextSt → List String → Option TextSt
  | ts, [] => some ts
  | ts, l :: rest =>
    match lineStep ts l with
    | none => none
    | some ts' => linesStep ts' rest

/-- The state of the document scan: before the first heading (everything
is skipped), inside a record with no active truthy section (data is
skipped), or inside an active section whose `"text"` entry is in state
`ts`. -/
inductive ScanSt where
  | outside
  | noSection
  | inSection (ts : TextSt)

/-- One node of the raise-freedom scan.  `none` marks a node on which the
extractor raises: a heading without a token after its colon (IndexError,
line 50) or a data line appending narrative to a scalar `"text"` entry
(AttributeError, line 75).  A section marker opens a fresh section (the
line 60 reset discards any previous `"text"` state of that name), an
empty section name is falsy, and data outside an active section is
skipped. -/
def scanStep (st : ScanSt) (n : Node) : Option ScanSt :=
  match n with
  | Node.heading t =>
    if goodHeadingText t then some ScanSt.noSection else none
  | Node.sectionMark t =>
    (match st with
     | ScanSt.outside => some ScanSt.outside
     | _ => some (if rstripColon t = "" then ScanSt.noSection
                  else ScanSt.inSection TextSt.absent))
  | Node.dataBlock raw =>
    (match st with
     | ScanSt.inSection ts =>
       (match linesStep ts (parseAcndataBlock raw) with
        | none => none
        | some ts' => some (ScanSt.inSection ts'))
     | st' => some st')
  | Node.other => some st

/-- Run the scan over a node list, returning the final state unless some
node raises. -/
def scanSt : ScanSt → List Node → Option ScanSt
  | st, [] => some st
  | st, n :: rest =>
    match scanStep st n with
    | none => none
    | some st' => scanSt st' rest

/-- A document free of the two raise conditions: every heading keeps a
token after any colon, and no section ever receives a narrative line
while its `"text"` entry holds a scalar. -/
def docSafe (nodes : List Node) : Bool :=
  (scanSt ScanSt.outside nodes).isSome

/-- The section dict realises a `"text"` state. -/
def textMatches (ts : TextSt) (d : Sect) : Prop :=
  match ts with
  | TextSt.absent => alookup d "text" = none
  | TextSt.scalar => ∃ s, alookup d "text" = some (Val.str s)
  | TextSt.listy => ∃ l, alookup d "text" = some (Val.list l)

/-- The walk state realises a scan state: no active truthy section, or an
active section dict of the record whose `"text"` entry matches. -/
def stMatches : ScanSt → Rec × Option String → Prop
  | ScanSt.outside, _ => False
  | ScanSt.noSection, st => st.2 = none ∨ st.2 = some ""
  | ScanSt.inSection ts, st =>
    ∃ n d, st.2 = some n ∧ n ≠ "" ∧ alookup st.1 n = some (RVal.sect d) ∧
      textMatches ts d

/-- The current section name (when truthy) points at a section dict of the
record — the invariant that rules the `TypeError` branch out. -/
def curSect (st : Rec × Option String) : Prop :=
  ∀ n, st.2 = some n → n ≠ "" → ∃ d, alookup st.1 n = some (RVal.sect d)

/-- True when the node is not a heading (record bodies contain none). -/
def notHeadingNode : Node → Bool
  | Node.heading _ => false
  | _ => true

/-- A node list without heading nodes. -/
def noHeading (body : List Node) : Bool := body.all notHeadingNode

/-- A grouped `(heading, body)` pair free of the two raise conditions. -/
def pairSafe (p : String × List Node) : Bool :=
  goodHeadingText p.1 && (scanSt ScanSt.noSection p.2).isSome

/-- The link between the grouping accumulator and the scan state: before
the first heading the scan is `outside`; while accumulating a record the
heading is benign and scanning the accumulated body from `noSection`
reaches exactly the current state. -/
def scanLink : Option (String × List Node) → ScanSt → Prop
  | none, st => st = ScanSt.outside
  | some (t, acc), st =>
    goodHeadingText t = true ∧ scanSt ScanSt.noSection acc.reverse = some st

/-- The output contract of `get_hfacs_classification_from_llm` for a
non-blank narrative: writing `cls` for the returned classification list
and `body` for the fence-stripped response text, a response parsed as a
JSON list is returned as is, and every failure (non-list JSON, unparsable
body, API error, other exception) becomes a one-element list holding an
error descriptor — carrying the raw body where one is available. -/
def llmOutputContract (svc : String → SvcResult) (n : String) : Prop :=
  (match svc (promptFor n) with
   | SvcResult.ok t _ =>
     (∀ xs, pyJsonLoads (stripFences t) = some (PyVal.vlist xs) →
       (get_hfacs_classification_from_llm svc n).1.1 = xs) ∧
     (∀ v, pyJsonLoads (stripFences t) = some v → (∀ xs, v ≠ PyVal.vlist xs) →
       (get_hfacs_classification_from_llm svc n).1.1 =
         [errEntry "LLM did not return a list" (stripFences t)]) ∧
     (pyJsonLoads (stripFences t) = none →
       (get_hfacs_classification_from_llm svc n).1.1 =
         [errEntry "Failed to parse LLM JSON response" (stripFences t)])
   | SvcResult.apiError e =>
     (get_hfacs_classification_from_llm svc n).1.1 =
       [errEntryNoRaw ("OpenAI API Error: " ++ e)]
   | SvcResult.exn e =>
     (get_hfacs_classification_from_llm svc n).1.1 =
       [errEntryNoRaw ("Unexpected error: " ++ e)]) ∧
  (∀ field r, narrativeValue r field = PyVal.vstr n →
    ∃ p, processIncident svc field r = Except.ok p)

/-! ## Dictionary lemmas -/

theorem alookup_aset_self {α : Type} (d : List (String × α)) (k : String) (v : α) :
    alookup (aset d k v) k = some v := by
  induction d with
  | nil => simp [aset, alookup]
  | cons p rest ih =>
    obtain ⟨k', v'⟩ := p
    by_cases h : k' = k
    · simp [aset, alookup, h]
    · simp [aset, alookup, h, ih]

theorem alookup_aset_ne {α : Type} (d : List (String × α)) (k k' : String) (v : α)
    (h : k ≠ k') : alookup (aset d k v) k' = alookup d k' := by
  induction d with
  | nil => simp [aset, alookup, h]
  | cons p rest ih =>
    obtain ⟨k₀, v₀⟩ := p
    by_cases h0 : k₀ = k
    · subst h0
      simp [aset, alookup, h]
    · simp [aset, alookup, h0, ih]

theorem aset_aset {α : Type} (d : List (String × α)) (k : String) (v v' : α) :
    aset (aset d k v) k v' = aset d k v' := by
  induction d with
  | nil => simp [aset]
  | cons p rest ih =>
    obtain ⟨k₀, v₀⟩ := p
    by_cases h0 : k₀ = k
    · simp [aset, h0]
    · simp [aset, h0, ih]

/-! ## Duplicate-key promotion -/

/-- One key/value insertion promotes the stored value:
absent ↦ scalar, scalar ↦ two-element list, list ↦ appended list. -/
theorem alookup_kvInsert_self (d : Sect) (k v : String) :
    alookup (kvInsert d k v) k =
      some (match alookup d k with
            | none => Val.str v
            | some (Val.str u) => Val.list [u, v]
            | some (Val.list l) => Val.list (l ++ [v])) := by
  unfold kvInsert
  match h : alookup d k with
  | none => simp [h, alookup_aset_self]
  | some (Val.str u) => simp [h, alookup_aset_self]
  | some (Val.list l) => simp [h, alookup_aset_self]

/-- Folding further occurrences of a key over a section whose entry is
already a list appends them in order. -/
theorem foldl_kvInsert_list (k : String) (vs : List String) :
    ∀ (d : Sect) (l : List String), alookup d k = some (Val.list l) →
      alookup (vs.foldl (fun s v => kvInsert s k v) d) k =
        some (Val.list (l ++ vs)) := by
  induction vs with
  | nil => intro d l h; simpa using h
  | cons v vs ih =>
    intro d l h
    have hstep : alookup (kvInsert d k v) k = some (Val.list (l ++ [v])) := by
      rw [alookup_kvInsert_self, h]
    have := ih (kvInsert d k v) (l ++ [v]) hstep
    simpa [List.append_assoc] using this

/-! ## Identifier preservation through the sibling walk -/

/-- Lookup after the flatten step: section values are flattened, others
(in particular the identifier string) are untouched. -/
theorem alookup_flattenRecord (r : Rec) (k : String) :
    alookup (flattenRecord r) k =
      (alookup r k).map (fun v =>
        match v with
        | RVal.sect d => RVal.sect (flattenSection d)
        | v => v) := by
  induction r with
  | nil => simp [flattenRecord, alookup]
  | cons p rest ih =>
    obtain ⟨k₀, v₀⟩ := p
    simp only [flattenRecord] at ih
    by_cases h0 : k₀ = k
    · cases v₀ <;> simp [flattenRecord, alookup, h0]
    · cases v₀ <;> simp [flattenRecord, alookup, h0, ih]

/-- When no section marker of the body is named `"ACN"`, the sibling walk
never touches the record's `"ACN"` entry. -/
theorem runBody_acn : ∀ (body : List Node) (st st' : Rec × Option String),
    noAcnSection body = true → st.2 ≠ some "ACN" →
    runBody st body = .ok st' →
    alookup st'.1 "ACN" = alookup st.1 "ACN" := by
  intro body
  induction body with
  | nil =>
    intro st st' _ _ hok
    simp [runBody] at hok
    subst hok
    rfl
  | cons n rest ih =>
    intro st st' hacn hcur hok
    simp only [noAcnSection, List.all_cons, Bool.and_eq_true] at hacn
    have hacn' : noAcnSection rest = true := hacn.2
    cases n with
    | heading t =>
      simp [runBody, extractStep, Bind.bind, Except.bind] at hok
      exact ih st st' hacn' hcur hok
    | other =>
      simp [runBody, extractStep, Bind.bind, Except.bind] at hok
      exact ih st st' hacn' hcur hok
    | sectionMark t =>
      have hname : rstripColon t ≠ "ACN" := by
        simpa using hacn.1
      simp [runBody, extractStep, Bind.bind, Except.bind] at hok
      have := ih _ st' hacn' (by simpa using fun he => hname he) hok
      rw [this]
      exact alookup_aset_ne st.1 (rstripColon t) "ACN" (RVal.sect []) hname
    | dataBlock raw =>
      match hcur2 : st.2 with
      | none =>
        simp [runBody, extractStep, hcur2, Bind.bind, Except.bind] at hok
        have := ih st st' hacn' hcur hok
        simpa using this
      | some name =>
        have hname : name ≠ "ACN" := fun he => hcur (by rw [hcur2, he])
        by_cases hemp : name = ""
        · simp [runBody, extractStep, hcur2, hemp, Bind.bind, Except.bind] at hok
          have := ih st st' hacn' hcur hok
          simpa using this
        · match hlk : alookup st.1 name with
          | some (RVal.sect d) =>
            match happ : applyLines d (parseAcndataBlock raw) with
            | Except.error e =>
              simp [runBody, extractStep, hcur2, hemp, hlk, happ,
                Bind.bind, Except.bind] at hok
            | Except.ok d' =>
              simp [runBody, extractStep, hcur2, hemp, hlk, happ,
                Bind.bind, Except.bind] at hok
              have := ih _ st' hacn' (by simpa [hcur2] using hcur) hok
              rw [this]
              exact alookup_aset_ne st.1 name "ACN" (RVal.sect d') hname
          | some (RVal.str u) =>
            simp [runBody, extractStep, hcur2, hemp, hlk,
              Bind.bind, Except.bind] at hok
          | none =>
            simp [runBody, extractStep, hcur2, hemp, hlk,
              Bind.bind, Except.bind] at hok

/-! ## Narrative accumulation -/

/-- A key/value insertion under one label leaves every other label's entry
unchanged. -/
theorem alookup_kvInsert_ne (d : Sect) (k v k' : String) (h : k ≠ k') :
    alookup (kvInsert d k v) k' = alookup d k' := by
  unfold kvInsert
  match alookup d k with
  | none => exact alookup_aset_ne d k k' _ h
  | some (Val.str u) => exact alookup_aset_ne d k k' _ h
  | some (Val.list l) => exact alookup_aset_ne d k k' _ h

/-- The narrative accumulator: applying lines whose key/value labels are
never `"text"` succeeds and extends the `"text"` entry with exactly the
narrative (separator-free) lines, in order. -/
theorem applyLines_text : ∀ (lines : List String) (d : Sect) (narr0 : List String),
    lines.all lineNotTextLabel = true →
    alookup d "text" = optText narr0 →
    ∃ d', applyLines d lines = .ok d' ∧
      alookup d' "text" =
        optText (narr0 ++ lines.filter (fun l => (kvSplit l).isNone)) := by
  intro lines
  induction lines with
  | nil =>
    intro d narr0 _ hd
    exact ⟨d, rfl, by simpa using hd⟩
  | cons l ls ih =>
    intro d narr0 hall hd
    simp only [List.all_cons, Bool.and_eq_true] at hall
    match hkv : kvSplit l with
    | some (k, v) =>
      have hk : k ≠ "text" := by
        have := hall.1
        simp only [lineNotTextLabel, hkv] at this
        simpa using this
      have hstep : applyLine d l = .ok (kvInsert d k v) := by
        simp [applyLine, hkv]
      have hd' : alookup (kvInsert d k v) "text" = optText narr0 := by
        rw [alookup_kvInsert_ne d k v "text" hk]
        exact hd
      obtain ⟨d', hrun, htext⟩ := ih (kvInsert d k v) narr0 hall.2 hd'
      refine ⟨d', ?_, ?_⟩
      · simp [applyLines, hstep, Bind.bind, Except.bind, hrun]
      · rw [htext]
        simp [List.filter_cons, hkv]
    | none =>
      match narr0, hd with
      | [], hd =>
        have hstep : applyLine d l = .ok (aset d "text" (Val.list [l])) := by
          simp only [applyLine, hkv, appendText]
          rw [show alookup d "text" = none from hd]
        obtain ⟨d', hrun, htext⟩ := ih (aset d "text" (Val.list [l])) [l]
          hall.2 (by simp [alookup_aset_self, optText])
        refine ⟨d', ?_, ?_⟩
        · simp [applyLines, hstep, Bind.bind, Except.bind, hrun]
        · rw [htext]
          simp [List.filter_cons, hkv]
      | n0 :: r0, hd =>
        have hstep : applyLine d l =
            .ok (aset d "text" (Val.list ((n0 :: r0) ++ [l]))) := by
          simp only [applyLine, hkv, appendText]
          rw [show alookup d "text" = some (Val.list (n0 :: r0)) from hd]
        obtain ⟨d', hrun, htext⟩ := ih (aset d "text" (Val.list ((n0 :: r0) ++ [l])))
          ((n0 :: r0) ++ [l]) hall.2 (by simp [alookup_aset_self, optText])
        refine ⟨d', ?_, ?_⟩
        · simp only [applyLines, hstep, Bind.bind, Except.bind]
          simpa using hrun
        · rw [htext]
          simp [List.filter_cons, hkv, optText]

/-- The flatten step on a section whose `"text"` entry is the narrative
accumulator: absent stays absent, a non-empty accumulator becomes the
newline-joined string. -/
theorem flattenSection_text (d : Sect) (narr : List String)
    (h : alookup d "text" = optText narr) :
    alookup (flattenSection d) "text" =
      (match narr with
       | [] => none
       | narr => some (Val.str (pyJoin "\n" narr))) := by
  match narr with
  | [] =>
    simp only [optText] at h
    simp [flattenSection, h]
  | n :: ns =>
    simp only [optText] at h
    simp [flattenSection, h, alookup_aset_self]

/-! ## Trimmedness of extracted plain text -/

/-- A character list with no leading whitespace. -/
def noLeadSpc : List Char → Prop
  | [] => True
  | c :: _ => isSpc c = false

theorem noLeadSpc_dropWhile (l : List Char) : noLeadSpc (l.dropWhile isSpc) := by
  induction l with
  | nil => trivial
  | cons c t ih =>
    by_cases h : isSpc c = true
    · simpa [List.dropWhile, h] using ih
    · simp only [List.dropWhile, h]
      simpa [noLeadSpc] using h

theorem dropWhile_eq_self_of_noLeadSpc (l : List Char) (h : noLeadSpc l) :
    l.dropWhile isSpc = l := by
  cases l with
  | nil => rfl
  | cons c t =>
    simp only [noLeadSpc] at h
    simp [List.dropWhile, h]

theorem noLeadSpc_append (a b : List Char) (ha : a ≠ []) (h : noLeadSpc a) :
    noLeadSpc (a ++ b) := by
  cases a with
  | nil => exact absurd rfl ha
  | cons c t => simpa [noLeadSpc] using h

theorem stripL_reverse_noLead (l : List Char) : noLeadSpc (stripL l).reverse := by
  rw [stripL, List.reverse_reverse]
  exact noLeadSpc_dropWhile _

theorem noLeadSpc_reverse_dropWhile_reverse (l : List Char) (h : noLeadSpc l) :
    noLeadSpc ((l.reverse.dropWhile isSpc).reverse) := by
  cases l with
  | nil => trivial
  | cons c t =>
    simp only [noLeadSpc] at h
    rw [List.reverse_cons, List.dropWhile_append]
    by_cases he : (t.reverse.dropWhile isSpc).isEmpty
    · simp [he, List.dropWhile, h, noLeadSpc]
    · simp only [he, if_false, Bool.false_eq_true, ite_false, List.reverse_append]
      simpa [noLeadSpc] using h

theorem stripL_noLead (l : List Char) : noLeadSpc (stripL l) :=
  noLeadSpc_reverse_dropWhile_reverse (l.dropWhile isSpc) (noLeadSpc_dropWhile l)

theorem stripL_eq_self (l : List Char) (h1 : noLeadSpc l)
    (h2 : noLeadSpc l.reverse) : stripL l = l := by
  rw [stripL, dropWhile_eq_self_of_noLeadSpc l h1,
    dropWhile_eq_self_of_noLeadSpc l.reverse h2, List.reverse_reverse]

theorem joinFrags_ne_nil (x : List Char) (rest : List (List Char))
    (hx : x ≠ []) : joinFrags (x :: rest) ≠ [] := by
  cases rest with
  | nil => simpa [joinFrags] using hx
  | cons y r =>
    simp only [joinFrags]
    cases x with
    | nil => exact absurd rfl hx
    | cons c t => simp

theorem joinFrags_noLead (fs : List (List Char))
    (h : ∀ f ∈ fs, f ≠ [] ∧ noLeadSpc f) : noLeadSpc (joinFrags fs) := by
  match fs with
  | [] => trivial
  | [x] =>
    simpa [joinFrags] using (h x (by simp)).2
  | x :: y :: rest =>
    simp only [joinFrags]
    obtain ⟨hx, hlead⟩ := h x (by simp)
    exact noLeadSpc_append x _ hx hlead

theorem joinFrags_reverse_noLead (fs : List (List Char))
    (h : ∀ f ∈ fs, f ≠ [] ∧ noLeadSpc f.reverse) :
    noLeadSpc (joinFrags fs).reverse := by
  match fs with
  | [] => trivial
  | [x] =>
    simpa [joinFrags] using (h x (by simp)).2
  | x :: y :: rest =>
    have ih := joinFrags_reverse_noLead (y :: rest)
      (fun f hf => h f (by simp [hf]))
    have hyne : joinFrags (y :: rest) ≠ [] :=
      joinFrags_ne_nil y rest (h y (by simp)).1
    have hrevne : (joinFrags (y :: rest)).reverse ≠ [] := by
      simpa using hyne
    simp only [joinFrags, List.reverse_append, List.reverse_cons]
    rw [List.append_assoc]
    exact noLeadSpc_append _ _ hrevne ih

/-- Extracted plain text is already stripped: `pyGetText` output is a fixed
point of `pyStrip`. -/
theorem pyGetText_strip_fixed (line : String) :
    pyStrip (pyGetText line) = pyGetText line := by
  rw [pyGetText, pyStrip]
  have hmem : ∀ f ∈ ((frags false line.data []).map stripL).filter
      (fun l => l ≠ []), f ≠ [] ∧ noLeadSpc f ∧ noLeadSpc f.reverse := by
    intro f hf
    have hne : f ≠ [] := by
      have := List.of_mem_filter hf
      simpa using this
    have hmap : f ∈ (frags false line.data []).map stripL :=
      List.mem_of_mem_filter hf
    obtain ⟨g, _, hg⟩ := List.mem_map.mp hmap
    subst hg
    exact ⟨hne, stripL_noLead g, stripL_reverse_noLead g⟩
  have h1 : noLeadSpc (joinFrags (((frags false line.data []).map stripL).filter
      (fun l => l ≠ []))) :=
    joinFrags_noLead _ (fun f hf => ⟨(hmem f hf).1, (hmem f hf).2.1⟩)
  have h2 : noLeadSpc (joinFrags (((frags false line.data []).map stripL).filter
      (fun l => l ≠ []))).reverse :=
    joinFrags_reverse_noLead _ (fun f hf => ⟨(hmem f hf).1, (hmem f hf).2.2⟩)
  exact congrArg String.mk (stripL_eq_self _ h1 h2)

/-! ## The extractor's raise behavior

Two groups of lemmas: an unconditional characterization showing that
every failure carries one of the two raise conditions' errors (the
`TypeError` branch is unreachable), and a conditional proof that a
document passing the text-state scan extracts without raising. -/

theorem applyLines_ok_or_attr : ∀ (lines : List String) (d : Sect),
    (∃ d', applyLines d lines = .ok d') ∨
    applyLines d lines =
      .error "AttributeError: str object has no attribute append" := by
  intro lines
  induction lines with
  | nil => intro d; exact Or.inl ⟨d, rfl⟩
  | cons l ls ih =>
    intro d
    match hkv : kvSplit l with
    | some (k, v) =>
      have hstep : applyLine d l = .ok (kvInsert d k v) := by
        simp [applyLine, hkv]
      rcases ih (kvInsert d k v) with ⟨d', hd'⟩ | herr
      · exact Or.inl ⟨d', by simp [applyLines, hstep, Bind.bind, Except.bind,
          hd']⟩
      · exact Or.inr (by simp [applyLines, hstep, Bind.bind, Except.bind,
          herr])
    | none =>
      match halk : alookup d "text" with
      | none =>
        have hstep : applyLine d l = .ok (aset d "text" (Val.list [l])) := by
          simp [applyLine, hkv, appendText, halk]
        rcases ih (aset d "text" (Val.list [l])) with ⟨d', hd'⟩ | herr
        · exact Or.inl ⟨d', by simp [applyLines, hstep, Bind.bind,
            Except.bind, hd']⟩
        · exact Or.inr (by simp [applyLines, hstep, Bind.bind, Except.bind,
            herr])
      | some (Val.list l0) =>
        have hstep : applyLine d l =
            .ok (aset d "text" (Val.list (l0 ++ [l]))) := by
          simp [applyLine, hkv, appendText, halk]
        rcases ih (aset d "text" (Val.list (l0 ++ [l]))) with ⟨d', hd'⟩ | herr
        · exact Or.inl ⟨d', by simp [applyLines, hstep, Bind.bind,
            Except.bind, hd']⟩
        · exact Or.inr (by simp [applyLines, hstep, Bind.bind, Except.bind,
            herr])
      | some (Val.str u) =>
        have hstep : applyLine d l =
            .error "AttributeError: str object has no attribute append" := by
          simp [applyLine, hkv, appendText, halk]
        exact Or.inr (by simp [applyLines, hstep, Bind.bind, Except.bind])

theorem extractStep_ok_or_attr (st : Rec × Option String) (node : Node)
    (hst : curSect st) :
    (∃ st', extractStep st node = .ok st' ∧ curSect st') ∨
    extractStep st node =
      .error "AttributeError: str object has no attribute append" := by
  cases node with
  | heading t => exact Or.inl ⟨st, rfl, hst⟩
  | other => exact Or.inl ⟨st, rfl, hst⟩
  | sectionMark t =>
    refine Or.inl ⟨(aset st.1 (rstripColon t) (RVal.sect []),
      some (rstripColon t)), rfl, ?_⟩
    intro n hn _
    simp only [Option.some.injEq] at hn
    subst hn
    exact ⟨[], alookup_aset_self _ _ _⟩
  | dataBlock raw =>
    match hcur : st.2 with
    | none =>
      exact Or.inl ⟨st, by simp [extractStep, hcur], hst⟩
    | some name =>
      by_cases hemp : name = ""
      · exact Or.inl ⟨st, by simp [extractStep, hcur, hemp], hst⟩
      · obtain ⟨d, hd⟩ := hst name hcur hemp
        rcases applyLines_ok_or_attr (parseAcndataBlock raw) d with
          ⟨d', hd'⟩ | herr
        · refine Or.inl ⟨(aset st.1 name (RVal.sect d'), st.2), ?_, ?_⟩
          · simp [extractStep, hcur, hemp, hd, hd', Bind.bind, Except.bind]
          · intro n hn _
            rw [hcur] at hn
            simp only [Option.some.injEq] at hn
            subst hn
            exact ⟨d', alookup_aset_self _ _ _⟩
        · exact Or.inr (by simp [extractStep, hcur, hemp, hd, herr,
            Bind.bind, Except.bind])

theorem runBody_ok_or_attr : ∀ (body : List Node) (st : Rec × Option String),
    curSect st →
    (∃ st', runBody st body = .ok st') ∨
    runBody st body =
      .error "AttributeError: str object has no attribute append" := by
  intro body
  induction body with
  | nil => intro st _; exact Or.inl ⟨st, rfl⟩
  | cons n rest ih =>
    intro st hst
    rcases extractStep_ok_or_attr st n hst with ⟨st', hstep, hst'⟩ | herr
    · rcases ih st' hst' with ⟨st'', hrun⟩ | herr'
      · exact Or.inl ⟨st'', by simp [runBody, hstep, Bind.bind, Except.bind,
          hrun]⟩
      · exact Or.inr (by simp [runBody, hstep, Bind.bind, Except.bind, herr'])
    · exact Or.inr (by simp [runBody, herr, Bind.bind, Except.bind])

theorem buildRecord_err (t : String) (body : List Node) :
    (∃ r, buildRecord t body = .ok r) ∨
    buildRecord t body = .error "IndexError: list index out of range" ∨
    buildRecord t body =
      .error "AttributeError: str object has no attribute append" := by
  cases hc : containsSub t ":" with
  | false =>
    have hinit : initRecord t = .ok [] := by simp [initRecord, hc]
    rcases runBody_ok_or_attr body ([], none) (fun n hn _ => by simp at hn)
      with ⟨st, hrun⟩ | herr
    · exact Or.inl ⟨flattenRecord st.1,
        by simp [buildRecord, hinit, hrun, Bind.bind, Except.bind]⟩
    · exact Or.inr (Or.inr
        (by simp [buildRecord, hinit, herr, Bind.bind, Except.bind]))
  | true =>
    match htk : pySplitWs (afterFirstColon t) with
    | [] =>
      have hinit : initRecord t =
          .error "IndexError: list index out of range" := by
        simp [initRecord, hc, htk]
      exact Or.inr (Or.inl
        (by simp [buildRecord, hinit, Bind.bind, Except.bind]))
    | tok :: toks =>
      have hinit : initRecord t = .ok [("ACN", RVal.str tok)] := by
        simp [initRecord, hc, htk]
      rcases runBody_ok_or_attr body ([("ACN", RVal.str tok)], none)
        (fun n hn _ => by simp at hn) with ⟨st, hrun⟩ | herr
      · exact Or.inl ⟨flattenRecord st.1,
          by simp [buildRecord, hinit, hrun, Bind.bind, Except.bind]⟩
      · exact Or.inr (Or.inr
          (by simp [buildRecord, hinit, herr, Bind.bind, Except.bind]))

theorem buildRecords_err : ∀ pairs : List (String × List Node),
    (∃ rs, buildRecords pairs = .ok rs) ∨
    buildRecords pairs = .error "IndexError: list index out of range" ∨
    buildRecords pairs =
      .error "AttributeError: str object has no attribute append" := by
  intro pairs
  induction pairs with
  | nil => exact Or.inl ⟨[], rfl⟩
  | cons p ps ih =>
    rcases buildRecord_err p.1 p.2 with ⟨r, hr⟩ | herr | herr
    · rcases ih with ⟨rs, hrs⟩ | herr' | herr'
      · exact Or.inl ⟨r :: rs, by simp [buildRecords, hr, hrs, Bind.bind,
          Except.bind]⟩
      · exact Or.inr (Or.inl (by simp [buildRecords, hr, herr', Bind.bind,
          Except.bind]))
      · exact Or.inr (Or.inr (by simp [buildRecords, hr, herr', Bind.bind,
          Except.bind]))
    · exact Or.inr (Or.inl (by simp [buildRecords, herr, Bind.bind,
        Except.bind]))
    · exact Or.inr (Or.inr (by simp [buildRecords, herr, Bind.bind,
        Except.bind]))

theorem lineStep_applyLine (ts ts' : TextSt) (d : Sect) (l : String)
    (hm : textMatches ts d) (hs : lineStep ts l = some ts') :
    ∃ d', applyLine d l = .ok d' ∧ textMatches ts' d' := by
  cases hkv : kvSplit l with
  | some kv =>
    obtain ⟨k, v⟩ := kv
    by_cases hk : k = "text"
    · subst hk
      cases ts with
      | absent =>
        have hm' : alookup d "text" = none := hm
        simp only [lineStep, hkv, if_pos, Option.some.injEq] at hs
        subst hs
        refine ⟨aset d "text" (Val.str v), ?_, ?_⟩
        · simp [applyLine, hkv, kvInsert, hm']
        · exact ⟨v, alookup_aset_self _ _ _⟩
      | scalar =>
        obtain ⟨s, hm'⟩ := hm
        simp only [lineStep, hkv, if_pos, Option.some.injEq] at hs
        subst hs
        refine ⟨aset d "text" (Val.list [s, v]), ?_, ?_⟩
        · simp [applyLine, hkv, kvInsert, hm']
        · exact ⟨[s, v], alookup_aset_self _ _ _⟩
      | listy =>
        obtain ⟨l0, hm'⟩ := hm
        simp only [lineStep, hkv, if_pos, Option.some.injEq] at hs
        subst hs
        refine ⟨aset d "text" (Val.list (l0 ++ [v])), ?_, ?_⟩
        · simp [applyLine, hkv, kvInsert, hm']
        · exact ⟨l0 ++ [v], alookup_aset_self _ _ _⟩
    · have hstep : applyLine d l = .ok (kvInsert d k v) := by
        simp [applyLine, hkv]
      cases ts with
      | absent =>
        have hm' : alookup d "text" = none := hm
        simp only [lineStep, hkv, hk, if_false, Bool.false_eq_true,
          ite_false, Option.some.injEq] at hs
        subst hs
        refine ⟨kvInsert d k v, hstep, ?_⟩
        show alookup (kvInsert d k v) "text" = none
        rw [alookup_kvInsert_ne d k v "text" hk]
        exact hm'
      | scalar =>
        obtain ⟨s, hm'⟩ := hm
        simp only [lineStep, hkv, hk, if_false, Bool.false_eq_true,
          ite_false, Option.some.injEq] at hs
        subst hs
        refine ⟨kvInsert d k v, hstep, ?_⟩
        exact ⟨s, by rw [alookup_kvInsert_ne d k v "text" hk]; exact hm'⟩
      | listy =>
        obtain ⟨l0, hm'⟩ := hm
        simp only [lineStep, hkv, hk, if_false, Bool.false_eq_true,
          ite_false, Option.some.injEq] at hs
        subst hs
        refine ⟨kvInsert d k v, hstep, ?_⟩
        exact ⟨l0, by rw [alookup_kvInsert_ne d k v "text" hk]; exact hm'⟩
  | none =>
    cases ts with
    | scalar => simp [lineStep, hkv] at hs
    | absent =>
      have hm' : alookup d "text" = none := hm
      simp only [lineStep, hkv, Option.some.injEq] at hs
      subst hs
      refine ⟨aset d "text" (Val.list [l]), ?_, ?_⟩
      · simp [applyLine, hkv, appendText, hm']
      · exact ⟨[l], alookup_aset_self _ _ _⟩
    | listy =>
      obtain ⟨l0, hm'⟩ := hm
      simp only [lineStep, hkv, Option.some.injEq] at hs
      subst hs
      refine ⟨aset d "text" (Val.list (l0 ++ [l])), ?_, ?_⟩
      · simp [applyLine, hkv, appendText, hm']
      · exact ⟨l0 ++ [l], alookup_aset_self _ _ _⟩

theorem linesStep_applyLines : ∀ (lines : List String) (ts ts' : TextSt)
    (d : Sect), textMatches ts d → linesStep ts lines = some ts' →
    ∃ d', applyLines d lines = .ok d' ∧ textMatches ts' d' := by
  intro lines
  induction lines with
  | nil =>
    intro ts ts' d hm hs
    simp only [linesStep, Option.some.injEq] at hs
    subst hs
    exact ⟨d, rfl, hm⟩
  | cons l ls ih =>
    intro ts ts' d hm hs
    rw [linesStep] at hs
    match h1 : lineStep ts l with
    | none => rw [h1] at hs; simp at hs
    | some tsm =>
      rw [h1] at hs
      obtain ⟨d1, hd1, hm1⟩ := lineStep_applyLine ts tsm d l hm h1
      obtain ⟨d', hd', hm'⟩ := ih tsm ts' d1 hm1 hs
      exact ⟨d', by simp [applyLines, hd1, Bind.bind, Except.bind, hd'], hm'⟩

theorem scan_runBody : ∀ (body : List Node) (scan scan' : ScanSt)
    (st : Rec × Option String), noHeading body = true →
    scanSt scan body = some scan' → stMatches scan st →
    ∃ st', runBody st body = .ok st' ∧ stMatches scan' st' := by
  intro body
  induction body with
  | nil =>
    intro scan scan' st _ hs hm
    simp only [scanSt, Option.some.injEq] at hs
    subst hs
    exact ⟨st, rfl, hm⟩
  | cons n rest ih =>
    intro scan scan' st hnh hs hm
    simp only [noHeading, List.all_cons, Bool.and_eq_true] at hnh
    have hnh' : noHeading rest = true := hnh.2
    rw [scanSt] at hs
    match n with
    | Node.heading t => simp [notHeadingNode] at hnh
    | Node.other =>
      simp only [scanStep] at hs
      obtain ⟨st', hrun, hm'⟩ := ih scan scan' st hnh' hs hm
      exact ⟨st', by simp [runBody, extractStep, Bind.bind, Except.bind,
        hrun], hm'⟩
    | Node.sectionMark t =>
      match scan, hm with
      | ScanSt.outside, hm => exact absurd hm (by simp [stMatches])
      | ScanSt.noSection, hm =>
        simp only [scanStep] at hs
        by_cases ht : rstripColon t = ""
        · rw [if_pos ht] at hs
          have hm2 : stMatches ScanSt.noSection
              (aset st.1 (rstripColon t) (RVal.sect []),
               some (rstripColon t)) := Or.inr (by rw [ht])
          obtain ⟨st', hrun, hm'⟩ := ih ScanSt.noSection scan' _ hnh' hs hm2
          exact ⟨st', by simp [runBody, extractStep, Bind.bind, Except.bind,
            hrun], hm'⟩
        · rw [if_neg ht] at hs
          have hm2 : stMatches (ScanSt.inSection TextSt.absent)
              (aset st.1 (rstripColon t) (RVal.sect []),
               some (rstripColon t)) :=
            ⟨rstripColon t, [], rfl, ht, alookup_aset_self _ _ _, rfl⟩
          obtain ⟨st', hrun, hm'⟩ := ih _ scan' _ hnh' hs hm2
          exact ⟨st', by simp [runBody, extractStep, Bind.bind, Except.bind,
            hrun], hm'⟩
      | ScanSt.inSection ts, hm =>
        simp only [scanStep] at hs
        by_cases ht : rstripColon t = ""
        · rw [if_pos ht] at hs
          have hm2 : stMatches ScanSt.noSection
              (aset st.1 (rstripColon t) (RVal.sect []),
               some (rstripColon t)) := Or.inr (by rw [ht])
          obtain ⟨st', hrun, hm'⟩ := ih ScanSt.noSection scan' _ hnh' hs hm2
          exact ⟨st', by simp [runBody, extractStep, Bind.bind, Except.bind,
            hrun], hm'⟩
        · rw [if_neg ht] at hs
          have hm2 : stMatches (ScanSt.inSection TextSt.absent)
              (aset st.1 (rstripColon t) (RVal.sect []),
               some (rstripColon t)) :=
            ⟨rstripColon t, [], rfl, ht, alookup_aset_self _ _ _, rfl⟩
          obtain ⟨st', hrun, hm'⟩ := ih _ scan' _ hnh' hs hm2
          exact ⟨st', by simp [runBody, extractStep, Bind.bind, Except.bind,
            hrun], hm'⟩
    | Node.dataBlock raw =>
      match scan, hm with
      | ScanSt.outside, hm => exact absurd hm (by simp [stMatches])
      | ScanSt.noSection, hm =>
        simp only [scanStep] at hs
        rcases hm with hm | hm
        · obtain ⟨st', hrun, hm'⟩ := ih ScanSt.noSection scan' st hnh' hs
            (Or.inl hm)
          exact ⟨st', by simp [runBody, extractStep, hm, Bind.bind,
            Except.bind, hrun], hm'⟩
        · obtain ⟨st', hrun, hm'⟩ := ih ScanSt.noSection scan' st hnh' hs
            (Or.inr hm)
          exact ⟨st', by simp [runBody, extractStep, hm, Bind.bind,
            Except.bind, hrun], hm'⟩
      | ScanSt.inSection ts, hm =>
        obtain ⟨name, d, hn, hne, hd, htm⟩ := hm
        simp only [scanStep] at hs
        match h1 : linesStep ts (parseAcndataBlock raw) with
        | none => rw [h1] at hs; simp at hs
        | some ts1 =>
          rw [h1] at hs
          simp only [Option.some.injEq] at hs
          obtain ⟨d', hd', htm'⟩ :=
            linesStep_applyLines (parseAcndataBlock raw) ts ts1 d htm h1
          have hm2 : stMatches (ScanSt.inSection ts1)
              (aset st.1 name (RVal.sect d'), st.2) :=
            ⟨name, d', hn, hne, alookup_aset_self _ _ _, htm'⟩
          obtain ⟨st', hrun, hm'⟩ := ih (ScanSt.inSection ts1) scan' _ hnh'
            hs hm2
          rw [hn] at hrun
          exact ⟨st', by simp [runBody, extractStep, hn, hne, hd, hd',
            Bind.bind, Except.bind, hrun], hm'⟩

theorem buildRecord_safe (t : String) (body : List Node)
    (ht : goodHeadingText t = true) (hnh : noHeading body = true)
    (hscan : (scanSt ScanSt.noSection body).isSome = true) :
    ∃ r, buildRecord t body = .ok r := by
  obtain ⟨scan', hscan'⟩ := Option.isSome_iff_exists.mp hscan
  cases hc : containsSub t ":" with
  | false =>
    have hinit : initRecord t = .ok [] := by simp [initRecord, hc]
    obtain ⟨st, hrun, _⟩ := scan_runBody body ScanSt.noSection scan'
      ([], none) hnh hscan' (Or.inl rfl)
    exact ⟨flattenRecord st.1,
      by simp [buildRecord, hinit, hrun, Bind.bind, Except.bind]⟩
  | true =>
    have htoks : pySplitWs (afterFirstColon t) ≠ [] := by
      simp only [goodHeadingText, hc, Bool.not_true, Bool.false_or,
        Bool.not_eq_true'] at ht
      simpa [List.isEmpty_iff] using ht
    match htk : pySplitWs (afterFirstColon t) with
    | [] => exact absurd htk htoks
    | tok :: toks =>
      have hinit : initRecord t = .ok [("ACN", RVal.str tok)] := by
        simp [initRecord, hc, htk]
      obtain ⟨st, hrun, _⟩ := scan_runBody body ScanSt.noSection scan'
        ([("ACN", RVal.str tok)], none) hnh hscan' (Or.inl rfl)
      exact ⟨flattenRecord st.1,
        by simp [buildRecord, hinit, hrun, Bind.bind, Except.bind]⟩

theorem buildRecords_safe : ∀ pairs : List (String × List Node),
    pairs.all pairSafe = true →
    pairs.all (fun p => noHeading p.2) = true →
    ∃ rs, buildRecords pairs = .ok rs := by
  intro pairs
  induction pairs with
  | nil => intro _ _; exact ⟨[], rfl⟩
  | cons p ps ih =>
    intro hall hnh
    simp only [List.all_cons, Bool.and_eq_true, pairSafe] at hall hnh
    obtain ⟨r, hr⟩ := buildRecord_safe p.1 p.2 hall.1.1 hnh.1 hall.1.2
    obtain ⟨rs, hrs⟩ := ih hall.2 hnh.2
    exact ⟨r :: rs, by simp [buildRecords, hr, hrs, Bind.bind, Except.bind]⟩

theorem scanSt_append : ∀ (a b : List Node) (st : ScanSt),
    scanSt st (a ++ b) =
      (match scanSt st a with
       | none => none
       | some st' => scanSt st' b) := by
  intro a
  induction a with
  | nil => intro b st; rfl
  | cons n rest ih =>
    intro b st
    simp only [List.cons_append, scanSt]
    match scanStep st n with
    | none => rfl
    | some st' => exact ih b st'

theorem scan_split : ∀ (nodes : List Node)
    (cur : Option (String × List Node)) (st : ScanSt),
    scanLink cur st → (scanSt st nodes).isSome = true →
    (splitRecordsAux cur nodes).all pairSafe = true := by
  intro nodes
  induction nodes with
  | nil =>
    intro cur st hlink hs
    match cur, hlink with
    | none, hlink => rfl
    | some (t, acc), ⟨hgood, hacc⟩ =>
      simp only [splitRecordsAux, List.all_cons, List.all_nil,
        Bool.and_eq_true, pairSafe]
      exact ⟨⟨hgood, by rw [hacc]; rfl⟩, trivial⟩
  | cons n rest ih =>
    intro cur st hlink hs
    rw [scanSt] at hs
    match hstep : scanStep st n with
    | none => rw [hstep] at hs; simp at hs
    | some st'' =>
      rw [hstep] at hs
      match n with
      | Node.heading t =>
        have hgood' : goodHeadingText t = true ∧ st'' = ScanSt.noSection := by
          rw [scanStep] at hstep
          by_cases hg : goodHeadingText t = true
          · rw [if_pos hg] at hstep
            simp only [Option.some.injEq] at hstep
            exact ⟨hg, hstep.symm⟩
          · rw [if_neg hg] at hstep
            simp at hstep
        match cur, hlink with
        | none, hlink =>
          apply ih (some (t, [])) st'' ?_ hs
          rw [scanLink]
          exact ⟨hgood'.1, by rw [hgood'.2]; rfl⟩
        | some (t0, acc), ⟨hgood0, hacc⟩ =>
          simp only [splitRecordsAux, List.all_cons, Bool.and_eq_true]
          refine ⟨?_, ?_⟩
          · simp only [pairSafe, Bool.and_eq_true]
            exact ⟨hgood0, by rw [hacc]; rfl⟩
          · apply ih (some (t, [])) st'' ?_ hs
            rw [scanLink]
            exact ⟨hgood'.1, by rw [hgood'.2]; rfl⟩
      | Node.sectionMark t =>
        match cur, hlink with
        | none, hlink =>
          subst hlink
          have : st'' = ScanSt.outside := by
            rw [scanStep] at hstep
            simp only [Option.some.injEq] at hstep
            exact hstep.symm
          subst this
          exact ih none ScanSt.outside rfl hs
        | some (t0, acc), ⟨hgood0, hacc⟩ =>
          apply ih (some (t0, Node.sectionMark t :: acc)) st'' ?_ hs
          rw [scanLink]
          refine ⟨hgood0, ?_⟩
          rw [List.reverse_cons, scanSt_append, hacc]
          simp [scanSt, hstep]
      | Node.dataBlock raw =>
        match cur, hlink with
        | none, hlink =>
          subst hlink
          have : st'' = ScanSt.outside := by
            simp only [scanStep, Option.some.injEq] at hstep
            exact hstep.symm
          subst this
          exact ih none ScanSt.outside rfl hs
        | some (t0, acc), ⟨hgood0, hacc⟩ =>
          apply ih (some (t0, Node.dataBlock raw :: acc)) st'' ?_ hs
          rw [scanLink]
          refine ⟨hgood0, ?_⟩
          rw [List.reverse_cons, scanSt_append, hacc]
          simp [scanSt, hstep]
      | Node.other =>
        have : st'' = st := by
          rw [scanStep] at hstep
          simp only [Option.some.injEq] at hstep
          exact hstep.symm
        subst this
        match cur, hlink with
        | none, hlink =>
          subst hlink
          exact ih none ScanSt.outside rfl hs
        | some (t0, acc), ⟨hgood0, hacc⟩ =>
          apply ih (some (t0, Node.other :: acc)) st'' ?_ hs
          rw [scanLink]
          refine ⟨hgood0, ?_⟩
          rw [List.reverse_cons, scanSt_append, hacc]
          simp [scanSt, scanStep]

theorem splitRecords_noHeading : ∀ (nodes : List Node)
    (cur : Option (String × List Node)),
    (∀ t acc, cur = some (t, acc) → noHeading acc = true) →
    (splitRecordsAux cur nodes).all (fun p => noHeading p.2) = true := by
  intro nodes
  induction nodes with
  | nil =>
    intro cur hcur
    match cur with
    | none => rfl
    | some (t, acc) =>
      simp only [splitRecordsAux, List.all_cons, List.all_nil,
        Bool.and_eq_true]
      refine ⟨?_, trivial⟩
      have := hcur t acc rfl
      simpa [noHeading, List.all_reverse] using this
  | cons n rest ih =>
    intro cur hcur
    match n, cur with
    | Node.heading t', none =>
      exact ih (some (t', [])) (fun t acc h => by
        simp only [Option.some.injEq, Prod.mk.injEq] at h
        rw [← h.2]
        rfl)
    | Node.heading t', some (t0, acc) =>
      simp only [splitRecordsAux, List.all_cons, Bool.and_eq_true]
      refine ⟨?_, ?_⟩
      · have := hcur t0 acc rfl
        simpa [noHeading, List.all_reverse] using this
      · exact ih (some (t', [])) (fun t acc' h => by
          simp only [Option.some.injEq, Prod.mk.injEq] at h
          rw [← h.2]
          rfl)
    | Node.sectionMark t', none => exact ih none (fun t acc h => by simp at h)
    | Node.sectionMark t', some (t0, acc) =>
      apply ih (some (t0, Node.sectionMark t' :: acc))
      intro t acc' h
      simp only [Option.some.injEq, Prod.mk.injEq] at h
      rw [← h.2]
      have := hcur t0 acc rfl
      simpa [noHeading, notHeadingNode] using this
    | Node.dataBlock raw, none => exact ih none (fun t acc h => by simp at h)
    | Node.dataBlock raw, some (t0, acc) =>
      apply ih (some (t0, Node.dataBlock raw :: acc))
      intro t acc' h
      simp only [Option.some.injEq, Prod.mk.injEq] at h
      rw [← h.2]
      have := hcur t0 acc rfl
      simpa [noHeading, notHeadingNode] using this
    | Node.other, none => exact ih none (fun t acc h => by simp at h)
    | Node.other, some (t0, acc) =>
      apply ih (some (t0, Node.other :: acc))
      intro t acc' h
      simp only [Option.some.injEq, Prod.mk.injEq] at h
      rw [← h.2]
      have := hcur t0 acc rfl
      simpa [noHeading, notHeadingNode] using this

/-! ## Batch-run index bookkeeping -/

theorem getD_set_self {α : Type} : ∀ (l : List α) (i : Nat) (x d : α),
    i < l.length → (l.set i x).getD i d = x := by
  intro l
  induction l with
  | nil => intro i x d h; simp at h
  | cons a t ih =>
    intro i x d h
    match i with
    | 0 => rfl
    | j + 1 =>
      simp only [List.set, List.getD, List.get?]
      exact ih j x d (by simpa using h)

theorem getD_set_ne {α : Type} : ∀ (l : List α) (i j : Nat) (x d : α),
    i ≠ j → (l.set i x).getD j d = l.getD j d := by
  intro l
  induction l with
  | nil => intro i j x d _; simp [List.set]
  | cons a t ih =>
    intro i j x d hij
    match i, j with
    | 0, 0 => exact absurd rfl hij
    | 0, k + 1 => rfl
    | m + 1, 0 => rfl
    | m + 1, k + 1 =>
      simp only [List.set, List.getD, List.get?]
      exact ih m k x d (fun he => hij (by rw [he]))

theorem drop_eq_getD_cons {α : Type} : ∀ (l : List α) (s : Nat) (d : α),
    s < l.length → l.drop s = l.getD s d :: l.drop (s + 1) := by
  intro l
  induction l with
  | nil => intro s d h; simp at h
  | cons a t ih =>
    intro s d h
    match s with
    | 0 => rfl
    | j + 1 =>
      simp only [List.drop, List.getD, List.get?]
      exact ih j d (by simpa using h)

theorem pySlice_cons {α : Type} (l : List α) (s e : Nat) (d : α)
    (hse : s < e) (hel : e ≤ l.length) :
    pySlice l s e = l.getD s d :: pySlice l (s + 1) e := by
  have hsl : s < l.length := lt_of_lt_of_le hse hel
  rw [pySlice, drop_eq_getD_cons l s d hsl]
  have he : e - s = (e - (s + 1)) + 1 := by omega
  rw [he, List.take_succ_cons, pySlice]

theorem pySlice_length {α : Type} (l : List α) (s e : Nat)
    (hse : s ≤ e) (hel : e ≤ l.length) :
    (pySlice l s e).length = e - s := by
  rw [pySlice, List.length_take, List.length_drop]
  omega

theorem getD_pySlice {α : Type} : ∀ (j s e : Nat) (l : List α) (d : α),
    j < e - s → e ≤ l.length →
    (pySlice l s e).getD j d = l.getD (s + j) d := by
  intro j
  induction j with
  | zero =>
    intro s e l d hj hel
    rw [pySlice_cons l s e d (by omega) hel]
    rfl
  | succ k ih =>
    intro s e l d hj hel
    rw [pySlice_cons l s e d (by omega) hel]
    simp only [List.getD, List.get?]
    rw [show s + (k + 1) = (s + 1) + k from by omega]
    exact ih (s + 1) e l d (by omega) hel

/-- Every record of a list with pointwise string identifiers passes the
`has_acn` check. -/
theorem hasAcnAll_of : ∀ (all : List PRec) (g : Nat → String),
    (∀ i, i < all.length → alookup (all.getD i []) "ACN" =
      some (PyVal.vstr (g i))) →
    hasAcnAll all = true := by
  intro all
  induction all with
  | nil => intro g _; rfl
  | cons r rest ih =>
    intro g h
    simp only [hasAcnAll, List.all_cons, Bool.and_eq_true]
    constructor
    · have h0 : alookup r "ACN" = some (PyVal.vstr (g 0)) := h 0 (by simp)
      simp [h0]
    · exact ih (fun i => g (i + 1)) (fun i hi => h (i + 1) (by simpa using hi))

/-- No entry of the identifier map carries a string absent from the
records. -/
theorem mlookup_buildMapFrom_none : ∀ (all : List PRec) (k : Nat) (x : String),
    (∀ i, i < all.length → ∃ si, alookup (all.getD i []) "ACN" =
      some (PyVal.vstr si) ∧ si ≠ x) →
    mlookup (buildMapFrom k all) (PyVal.vstr x) = none := by
  intro all
  induction all with
  | nil => intro k x _; rfl
  | cons r rest ih =>
    intro k x h
    obtain ⟨s0, hs0, hne⟩ := h 0 (by simp)
    have hs0' : alookup r "ACN" = some (PyVal.vstr s0) := hs0
    have hrest := ih (k + 1) x
      (fun i hi => h (i + 1) (by simpa using hi))
    simp only [buildMapFrom, hs0']
    by_cases hin : (mlookup (buildMapFrom (k + 1) rest) (PyVal.vstr s0)).isSome
    · simp [hin, hrest]
    · simp only [hin, if_false, Bool.false_eq_true, ite_false]
      simp only [mlookup, pvEq]
      simp [hne, hrest]

/-- With all identifiers present and pairwise distinct, the identifier map
sends record `i`'s identifier to index `k + i`. -/
theorem mlookup_buildMapFrom_self : ∀ (all : List PRec) (k : Nat)
    (g : Nat → String),
    (∀ i, i < all.length → alookup (all.getD i []) "ACN" =
      some (PyVal.vstr (g i))) →
    (∀ i j, i < all.length → j < all.length → g i = g j → i = j) →
    ∀ i, i < all.length →
      mlookup (buildMapFrom k all) (PyVal.vstr (g i)) = some (k + i) := by
  intro all
  induction all with
  | nil => intro k g _ _ i hi; simp at hi
  | cons r rest ih =>
    intro k g h hinj i hi
    have h0 : alookup r "ACN" = some (PyVal.vstr (g 0)) := h 0 (by simp)
    have hnotin : mlookup (buildMapFrom (k + 1) rest) (PyVal.vstr (g 0)) =
        none := by
      apply mlookup_buildMapFrom_none
      intro j hj
      refine ⟨g (j + 1), h (j + 1) (by simpa using hj), ?_⟩
      intro he
      have := hinj (j + 1) 0 (by simpa using hj) (by simp) he
      omega
    simp only [buildMapFrom, h0, hnotin, Option.isSome_none,
      Bool.false_eq_true, ite_false]
    match i with
    | 0 =>
      simp [mlookup, pvEq]
    | j + 1 =>
      have hne : g 0 ≠ g (j + 1) := by
        intro he
        have := hinj 0 (j + 1) (by simp) (by simpa using hi) he
        omega
      have hdec : (decide (g 0 = g (j + 1))) = false := by simpa using hne
      simp only [mlookup, pvEq, hdec, Bool.false_eq_true, ite_false]
      have := ih (k + 1) (fun i => g (i + 1))
        (fun i hi' => h (i + 1) (by simpa using hi'))
        (fun i i' hi' hi'' he => by
          have := hinj (i + 1) (i' + 1) (by simpa using hi')
            (by simpa using hi'') he
          omega)
        j (by simpa using hi)
      rw [this]
      congr 1
      omega

/-- Lemma: `processIncident` only assigns the `"hfacs_classification"` key. -/
theorem processIncident_shape (svc : String → SvcResult) (field : String)
    (r : PRec) (p : PRec × List String)
    (h : processIncident svc field r = .ok p) :
    ∃ cls, p.1 = aset r "hfacs_classification" (PyVal.vlist cls) := by
  rw [processIncident] at h
  simp only [Bind.bind, Except.bind] at h
  split at h
  · simp at h
  · split at h
    · simp at h
    · split at h
      · injection h with h2
        exact ⟨[], by rw [← h2]⟩
      · split at h
        · injection h with h2
          exact ⟨_, by rw [← h2]⟩
        all_goals simp at h

/-- Lemma: `processIncident` preserves the record's identifier. -/
theorem processIncident_acn (svc : String → SvcResult) (field : String)
    (r : PRec) (p : PRec × List String)
    (h : processIncident svc field r = .ok p) :
    alookup p.1 "ACN" = alookup r "ACN" := by
  obtain ⟨cls, hp⟩ := processIncident_shape svc field r p h
  rw [hp]
  exact alookup_aset_ne r "hfacs_classification" "ACN" _ (by decide)

/-- The main loop over a slice whose incidents all resolve (through the
identifier map) to their own original index: it updates exactly the
processed range, one record per index, and leaves the rest untouched. -/
theorem runSlice_spec (svc : String → SvcResult) (field : String)
    (m : List (PyVal × Nat)) :
    ∀ (slice : List PRec) (all out : List PRec) (s : Nat),
    (∀ j, j < slice.length → ∃ a, alookup (slice.getD j []) "ACN" = some a ∧
      mlookup m a = some (s + j)) →
    s + slice.length ≤ all.length →
    runSlice svc field true m all s slice = .ok out →
    out.length = all.length ∧
    (∀ j, j < slice.length →
      ∃ p, processIncident svc field (all.getD (s + j) []) = .ok p ∧
        out.getD (s + j) [] = p.1) ∧
    (∀ j, j < s ∨ s + slice.length ≤ j → out.getD j [] = all.getD j []) := by
  intro slice
  induction slice with
  | nil =>
    intro all out s _ _ hok
    simp only [runSlice] at hok
    injection hok with h2
    subst h2
    exact ⟨rfl, fun j hj => by simp at hj, fun j _ => rfl⟩
  | cons inc rest ih =>
    intro all out s htarget hbound hok
    obtain ⟨a, ha, hm⟩ := htarget 0 (by simp)
    have ha' : alookup inc "ACN" = some a := ha
    have hm' : mlookup m a = some s := by
      rw [hm]
      simp
    have hfind : findTarget true m inc s all.length = some s := by
      simp [findTarget, ha', hm']
    have hs : s < all.length := by
      simp only [List.length_cons] at hbound
      omega
    simp only [runSlice, mainStep, hfind, Bind.bind, Except.bind] at hok
    cases hpi : processIncident svc field (all.getD s []) with
    | error e =>
      rw [hpi] at hok
      simp at hok
    | ok p =>
      rw [hpi] at hok
      dsimp only at hok
      have htarget' : ∀ j, j < rest.length →
          ∃ a', alookup (rest.getD j []) "ACN" = some a' ∧
            mlookup m a' = some ((s + 1) + j) := by
        intro j hj
        obtain ⟨a', ha2, hm2⟩ := htarget (j + 1) (by simpa using hj)
        refine ⟨a', ha2, ?_⟩
        rw [show (s + 1) + j = s + (j + 1) from by omega]
        exact hm2
      have hbound' : (s + 1) + rest.length ≤ (all.set s p.1).length := by
        simp only [List.length_set, List.length_cons] at hbound ⊢
        omega
      obtain ⟨hlen, hproc, hrest⟩ := ih (all.set s p.1) out (s + 1) htarget'
        hbound' hok
      refine ⟨by simpa using hlen, ?_, ?_⟩
      · intro j hj
        match j with
        | 0 =>
          refine ⟨p, by simpa using hpi, ?_⟩
          rw [show s + 0 = s from by omega]
          have h1 := hrest s (by omega)
          rw [h1, getD_set_self all s p.1 [] hs]
        | j' + 1 =>
          obtain ⟨p', hp', hout'⟩ := hproc j' (by simpa using hj)
          rw [getD_set_ne all s ((s + 1) + j') p.1 [] (by omega)] at hp'
          refine ⟨p', ?_, ?_⟩
          · rw [show s + (j' + 1) = (s + 1) + j' from by omega]
            exact hp'
          · rw [show s + (j' + 1) = (s + 1) + j' from by omega]
            exact hout'
      · intro j hcase
        have h1 : out.getD j [] = (all.set s p.1).getD j [] := by
          apply hrest
          simp only [List.length_cons] at hcase
          omega
        rw [h1, getD_set_ne all s j p.1 [] (by
          simp only [List.length_cons] at hcase
          omega)]

/-- One classifier run against a master list with pointwise-equal,
pairwise-distinct string identifiers: the final list has the same length,
every index of the selected range carries the result of processing that
index's master record, and every other index is untouched. -/
theorem mainRun_spec (svc : String → SvcResult) (field : String)
    (incidents all out : List PRec) (s e : Nat) (g : Nat → String)
    (hlen : all.length = incidents.length)
    (hacnInc : ∀ i, i < incidents.length →
      alookup (incidents.getD i []) "ACN" = some (PyVal.vstr (g i)))
    (hacnAll : ∀ i, i < all.length →
      alookup (all.getD i []) "ACN" = some (PyVal.vstr (g i)))
    (hinj : ∀ i j, i < all.length → j < all.length → g i = g j → i = j)
    (hse : s < e) (hen : e ≤ incidents.length)
    (hok : mainRun svc field incidents (some all) s e = .ok out) :
    out.length = all.length ∧
    (∀ j, s ≤ j → j < e →
      ∃ p, processIncident svc field (all.getD j []) = .ok p ∧
        out.getD j [] = p.1) ∧
    (∀ j, j < s ∨ e ≤ j → out.getD j [] = all.getD j []) := by
  simp only [mainRun, Option.getD_some] at hok
  rw [hasAcnAll_of all g hacnAll] at hok
  have hslice_len : (pySlice incidents s e).length = e - s :=
    pySlice_length _ _ _ (le_of_lt hse) hen
  have htarget : ∀ j, j < (pySlice incidents s e).length →
      ∃ a, alookup ((pySlice incidents s e).getD j []) "ACN" = some a ∧
        mlookup (buildMapFrom 0 all) a = some (s + j) := by
    intro j hj
    rw [hslice_len] at hj
    refine ⟨PyVal.vstr (g (s + j)), ?_, ?_⟩
    · rw [getD_pySlice j s e incidents [] hj hen]
      exact hacnInc (s + j) (by omega)
    · have := mlookup_buildMapFrom_self all 0 g hacnAll hinj (s + j)
        (by omega)
      simpa using this
  have hbound : s + (pySlice incidents s e).length ≤ all.length := by
    rw [hslice_len]
    omega
  obtain ⟨h1, h2, h3⟩ := runSlice_spec svc field (buildMapFrom 0 all)
    (pySlice incidents s e) all out s htarget hbound hok
  refine ⟨h1, ?_, ?_⟩
  · intro j hsj hje
    have := h2 (j - s) (by rw [hslice_len]; omega)
    rw [show s + (j - s) = j from by omega] at this
    exact this
  · intro j hcase
    apply h3
    rw [hslice_len]
    omega

/-! ## Closed claim theorems -/

/-- C10: the reserved `"text"` key is not protected from data labels.  A
section holding the key/value line `text : hi` followed by a narrative
line makes the extractor raise (`.append` on a scalar); with no narrative
line, the flatten step newline-joins the *characters* of the scalar
(`"hi"` becomes `"h\ni"`). -/
theorem C10_theorem :
    extractRecords [Node.heading "ACN: 6", Node.sectionMark "S",
        Node.dataBlock "text : hi<br>free line"] =
      .error "AttributeError: str object has no attribute append" ∧
    extractRecords [Node.heading "ACN: 6", Node.sectionMark "S",
        Node.dataBlock "text : hi"] =
      .ok [[("ACN", RVal.str "6"), ("S", RVal.sect [("text", Val.str "h\ni")])]] := by
  exact ⟨rfl, rfl⟩

/-- C1 counterexample: a second occurrence of the same section marker does
*not* re-enter the section built at the first occurrence — it resets the
entry to an empty dict, so the key `A` collected under the first
occurrence is absent from the final record, although the one-occurrence
document does collect it. -/
theorem C1_counterexample :
    extractRecords [Node.heading "ACN: 1", Node.sectionMark "S",
        Node.dataBlock "A : 1", Node.sectionMark "S"] =
      .ok [[("ACN", RVal.str "1"), ("S", RVal.sect [])]] ∧
    extractRecords [Node.heading "ACN: 1", Node.sectionMark "S",
        Node.dataBlock "A : 1"] =
      .ok [[("ACN", RVal.str "1"), ("S", RVal.sect [("A", Val.str "1")])]] := by
  exact ⟨rfl, rfl⟩

/-- C2 counterexample: a heading whose text contains a colon with nothing
after it makes the extractor raise (`IndexError` at line 50) instead of
degrading to fewer populated fields; likewise a narrative line arriving
while the section's reserved `"text"` entry holds a scalar raises
(`AttributeError` at line 75). -/
theorem C2_counterexample :
    extractRecords [Node.heading "ACN:"] =
      .error "IndexError: list index out of range" ∧
    extractRecords [Node.heading "ACN: 7", Node.sectionMark "S",
        Node.dataBlock "text : q<br>some narrative"] =
      .error "AttributeError: str object has no attribute append" := by
  exact ⟨rfl, rfl⟩

/-- C5 counterexample: a section whose only line is the key/value line
`text : zz` has zero narrative lines, yet its output carries a `"text"`
key (moreover mangled to `"z\nz"` by the flatten step). -/
theorem C5_counterexample :
    extractRecords [Node.heading "ACN: 3", Node.sectionMark "S",
        Node.dataBlock "text : zz"] =
      .ok [[("ACN", RVal.str "3"), ("S", RVal.sect [("text", Val.str "z\nz")])]] := by
  exact rfl

/-- C6 counterexample: the raw line `<b></b>` is not whitespace-only, so it
survives the pre-classification filter, but its extracted plain text is
the empty string — an empty line that is then classified as narrative and
stored in the section's `"text"` accumulator. -/
theorem C6_counterexample :
    parseAcndataBlock "<b></b>" = [""] ∧
    extractRecords [Node.heading "ACN: 5", Node.sectionMark "S",
        Node.dataBlock "A : 1<br><b></b>"] =
      .ok [[("ACN", RVal.str "5"),
            ("S", RVal.sect [("A", Val.str "1"), ("text", Val.str "")])]] := by
  exact ⟨rfl, rfl⟩

/-- C9 counterexample: with *non-unique* identifiers the classifier does
not fall back to positional merging — both records carry `ACN = "1"`, and
two runs over the disjoint ranges `[0,1)` and `[1,2)` both write their
result into index 1 (the last record with that identifier).  In the final
output the record at index 0 was processed yet carries no
`"hfacs_classification"` key at all. -/
theorem C9_counterexample :
    mainRun (fun _ => SvcResult.exn "e") "Narrative"
        [[("ACN", PyVal.vstr "1"), ("Narrative", PyVal.vdict [("text", PyVal.vstr "")])],
         [("ACN", PyVal.vstr "1"), ("Narrative", PyVal.vdict [("text", PyVal.vstr "")])]]
        none 0 1 =
      .ok [[("ACN", PyVal.vstr "1"), ("Narrative", PyVal.vdict [("text", PyVal.vstr "")])],
           [("ACN", PyVal.vstr "1"), ("Narrative", PyVal.vdict [("text", PyVal.vstr "")]),
            ("hfacs_classification", PyVal.vlist [])]] ∧
    mainRun (fun _ => SvcResult.exn "e") "Narrative"
        [[("ACN", PyVal.vstr "1"), ("Narrative", PyVal.vdict [("text", PyVal.vstr "")])],
         [("ACN", PyVal.vstr "1"), ("Narrative", PyVal.vdict [("text", PyVal.vstr "")])]]
        (some [[("ACN", PyVal.vstr "1"), ("Narrative", PyVal.vdict [("text", PyVal.vstr "")])],
               [("ACN", PyVal.vstr "1"), ("Narrative", PyVal.vdict [("text", PyVal.vstr "")]),
                ("hfacs_classification", PyVal.vlist [])]]) 1 2 =
      .ok [[("ACN", PyVal.vstr "1"), ("Narrative", PyVal.vdict [("text", PyVal.vstr "")])],
           [("ACN", PyVal.vstr "1"), ("Narrative", PyVal.vdict [("text", PyVal.vstr "")]),
            ("hfacs_classification", PyVal.vlist [])]] ∧
    alookup [("ACN", PyVal.vstr "1"), ("Narrative", PyVal.vdict [("text", PyVal.vstr "")])]
        "hfacs_classification" = none := by
  exact ⟨rfl, rfl, rfl⟩

/-- C3: duplicate-key promotion is monotonic.  For a key absent from the
section, inserting the occurrences `v1, vs...` in order leaves a scalar
when there was exactly one occurrence and the in-order list of all values
otherwise; and the concrete block `A : 1<br>A : 2<br>A : 3` inside one
section yields `{"A": ["1","2","3"]}` end to end. -/
theorem C3_theorem :
    (∀ (k : String) (sec : Sect) (v1 : String) (vs : List String),
      alookup sec k = none →
      alookup ((v1 :: vs).foldl (fun d v => kvInsert d k v) sec) k =
        some (if vs.isEmpty then Val.str v1 else Val.list (v1 :: vs))) ∧
    extractRecords [Node.heading "ACN: 9", Node.sectionMark "S",
        Node.dataBlock "A : 1<br>A : 2<br>A : 3"] =
      .ok [[("ACN", RVal.str "9"),
            ("S", RVal.sect [("A", Val.list ["1", "2", "3"])])]] := by
  refine ⟨?_, rfl⟩
  intro k sec v1 vs hnone
  have h1 : alookup (kvInsert sec k v1) k = some (Val.str v1) := by
    rw [alookup_kvInsert_self, hnone]
  match vs with
  | [] => simpa using h1
  | v2 :: vs' =>
    have h2 : alookup (kvInsert (kvInsert sec k v1) k v2) k =
        some (Val.list [v1, v2]) := by
      rw [alookup_kvInsert_self, h1]
    have := foldl_kvInsert_list k vs' (kvInsert (kvInsert sec k v1) k v2)
      [v1, v2] h2
    simpa using this

/-- Witness for C3: three occurrences of `A` promote to the ordered
three-element list. -/
theorem C3_witness :
    alookup ((["1", "2", "3"]).foldl (fun d v => kvInsert d "A" v) []) "A" =
      some (Val.list ["1", "2", "3"]) :=
  C3_theorem.1 "A" [] "1" ["2", "3"] rfl

/-- C7: a narrative that strips to the empty string short-circuits, both in
`get_hfacs_classification_from_llm` (lines 227-229) and in the main loop
(lines 409-411): the classification result is the empty list, no key other
than `"hfacs_classification"` of the record changes, and the service-call
trace is empty — no call is issued, whatever the service would answer. -/
theorem C7_theorem (svc : String → SvcResult) (s : String)
    (h : pyStrip s = "") :
    get_hfacs_classification_from_llm svc s = (([], 0, 0), []) ∧
    ∀ (field : String) (r : PRec), narrativeValue r field = PyVal.vstr s →
      processIncident svc field r =
        .ok (aset r "hfacs_classification" (PyVal.vlist []), []) := by
  constructor
  · simp [get_hfacs_classification_from_llm, h]
  · intro field r hv
    by_cases hs : s = ""
    · subst hs
      simp [processIncident, hv, coerceNarrative, blankCheck, pyTruthy,
        Bind.bind, Except.bind]
    · simp [processIncident, hv, coerceNarrative, blankCheck, pyTruthy, hs, h,
        Bind.bind, Except.bind]

/-- Witness for C7: the whitespace-only narrative `" "` of a concrete
record is never sent to a service that would otherwise answer. -/
theorem C7_witness :
    pyStrip " " = "" ∧
    get_hfacs_classification_from_llm (fun _ => SvcResult.ok "[]" 5) " " =
      (([], 0, 0), []) ∧
    processIncident (fun _ => SvcResult.ok "[]" 5) "Narrative"
        [("Narrative", PyVal.vdict [("text", PyVal.vstr " ")])] =
      .ok ([("Narrative", PyVal.vdict [("text", PyVal.vstr " ")]),
            ("hfacs_classification", PyVal.vlist [])], []) := by
  refine ⟨rfl, (C7_theorem (fun _ => SvcResult.ok "[]" 5) " " rfl).1, ?_⟩
  exact (C7_theorem (fun _ => SvcResult.ok "[]" 5) " " rfl).2 "Narrative" _ rfl

/-- C8: for every service response to a non-blank narrative, the attached
classification is either the parsed JSON list, or a one-element list
holding an error descriptor — with the raw fence-stripped body for
non-list and unparsable responses, without it for transport failures —
and processing a record with such a narrative always returns a value
(the batch is not aborted). -/
theorem C8_theorem (svc : String → SvcResult) (n : String)
    (h : pyStrip n ≠ "") : llmOutputContract svc n := by
  have hn : n ≠ "" := by
    intro he
    subst he
    exact h rfl
  constructor
  · cases hsvc : svc (promptFor n) with
    | ok t tok =>
      refine ⟨?_, ?_, ?_⟩
      · intro xs hxs
        simp [get_hfacs_classification_from_llm, hn, h, hsvc, hxs]
      · intro v hv hnv
        cases v with
        | vlist xs => exact absurd rfl (hnv xs)
        | vnull => simp [get_hfacs_classification_from_llm, hn, h, hsvc, hv]
        | vbool b => simp [get_hfacs_classification_from_llm, hn, h, hsvc, hv]
        | vnum m => simp [get_hfacs_classification_from_llm, hn, h, hsvc, hv]
        | vstr s => simp [get_hfacs_classification_from_llm, hn, h, hsvc, hv]
        | vdict kvs => simp [get_hfacs_classification_from_llm, hn, h, hsvc, hv]
      · intro hnone
        simp [get_hfacs_classification_from_llm, hn, h, hsvc, hnone]
    | apiError e =>
      simp [get_hfacs_classification_from_llm, hn, h, hsvc]
    | exn e =>
      simp [get_hfacs_classification_from_llm, hn, h, hsvc]
  · intro field r hv
    refine ⟨(aset r "hfacs_classification"
      (PyVal.vlist (get_hfacs_classification_from_llm svc n).1.1),
      (get_hfacs_classification_from_llm svc n).2), ?_⟩
    simp [processIncident, hv, coerceNarrative, blankCheck, pyTruthy, hn, h,
      Bind.bind, Except.bind]

/-- Witness for C8: a service answering the fenced empty JSON list. -/
theorem C8_witness :
    pyStrip "x" ≠ "" ∧ llmOutputContract (fun _ => SvcResult.ok "[]" 3) "x" :=
  ⟨by decide, C8_theorem (fun _ => SvcResult.ok "[]" 3) "x" (by decide)⟩

/-- C4: identifier extraction from the heading.  When the heading text has
a colon, the record's identifier entry holds the first
whitespace-delimited token after the first colon; with no colon the record
has no identifier entry at all.  Side conditions: a token must exist after
the colon (otherwise the code raises, see C2), and no section marker of
the body may be named `"ACN"` (such a marker would overwrite the entry). -/
theorem C4_theorem (t : String) (body : List Node) (r : Rec)
    (hacn : noAcnSection body = true) (hok : buildRecord t body = .ok r) :
    (∀ tok toks, containsSub t ":" = true →
      pySplitWs (afterFirstColon t) = tok :: toks →
      alookup r "ACN" = some (RVal.str tok)) ∧
    (containsSub t ":" = false → alookup r "ACN" = none) := by
  constructor
  · intro tok toks hc htok
    have hinit : initRecord t = .ok [("ACN", RVal.str tok)] := by
      simp [initRecord, hc, htok]
    rw [buildRecord] at hok
    rw [hinit] at hok
    simp only [Bind.bind, Except.bind] at hok
    match hrb : runBody ([("ACN", RVal.str tok)], none) body with
    | Except.error e => rw [hrb] at hok; exact absurd hok (by simp)
    | Except.ok st =>
      rw [hrb] at hok
      simp only [Except.ok.injEq] at hok
      subst hok
      have hpres := runBody_acn body _ st hacn (by simp) hrb
      rw [alookup_flattenRecord, hpres]
      simp [alookup]
  · intro hc
    have hinit : initRecord t = .ok [] := by
      simp [initRecord, hc]
    rw [buildRecord] at hok
    rw [hinit] at hok
    simp only [Bind.bind, Except.bind] at hok
    match hrb : runBody ([], none) body with
    | Except.error e => rw [hrb] at hok; exact absurd hok (by simp)
    | Except.ok st =>
      rw [hrb] at hok
      simp only [Except.ok.injEq] at hok
      subst hok
      have hpres := runBody_acn body _ st hacn (by simp) hrb
      rw [alookup_flattenRecord, hpres]
      simp [alookup]

/-- C1 (amended): a repeated section marker resets the section, so — as
long as the discarded first block raised nothing — the record built from
`S, data1, S, data2` equals the record built from `S, data2` alone. -/
theorem C1_theorem (acnT S raw1 raw2 : String) (rs : List Rec)
    (hok : extractRecords [Node.heading acnT, Node.sectionMark S,
      Node.dataBlock raw1, Node.sectionMark S, Node.dataBlock raw2] = .ok rs) :
    extractRecords [Node.heading acnT, Node.sectionMark S,
      Node.dataBlock raw2] = .ok rs := by
  rw [extractRecords, show splitRecordsAux none [Node.heading acnT,
      Node.sectionMark S, Node.dataBlock raw1, Node.sectionMark S,
      Node.dataBlock raw2] = [(acnT, [Node.sectionMark S, Node.dataBlock raw1,
      Node.sectionMark S, Node.dataBlock raw2])] from rfl] at hok
  rw [extractRecords, show splitRecordsAux none [Node.heading acnT,
      Node.sectionMark S, Node.dataBlock raw2] =
      [(acnT, [Node.sectionMark S, Node.dataBlock raw2])] from rfl]
  simp only [buildRecords, buildRecord, Bind.bind, Except.bind] at hok ⊢
  cases hinit : initRecord acnT with
  | error e =>
    simp [hinit] at hok
  | ok r0 =>
    by_cases hn : rstripColon S = ""
    · simp [hinit, hn, runBody, extractStep, aset_aset, Bind.bind,
        Except.bind] at hok ⊢
      exact hok
    · cases happ1 : applyLines [] (parseAcndataBlock raw1) with
      | error e =>
        simp [hinit, hn, runBody, extractStep, alookup_aset_self, happ1,
          Bind.bind, Except.bind] at hok
      | ok d1 =>
        cases happ2 : applyLines [] (parseAcndataBlock raw2) with
        | error e2 =>
          simp [hinit, hn, runBody, extractStep, alookup_aset_self, aset_aset,
            happ1, happ2, Bind.bind, Except.bind] at hok
        | ok d2 =>
          simp [hinit, hn, runBody, extractStep, alookup_aset_self, aset_aset,
            happ1, happ2, Bind.bind, Except.bind] at hok ⊢
          exact hok

/-- Witness for C1 (amended): with `A : 1` discarded by the reset, the
two-marker document equals the one-marker document. -/
theorem C1_witness :
    extractRecords [Node.heading "ACN: 2", Node.sectionMark "T",
        Node.dataBlock "A : 1", Node.sectionMark "T", Node.dataBlock "B : 2"] =
      .ok [[("ACN", RVal.str "2"), ("T", RVal.sect [("B", Val.str "2")])]] ∧
    extractRecords [Node.heading "ACN: 2", Node.sectionMark "T",
        Node.dataBlock "B : 2"] =
      .ok [[("ACN", RVal.str "2"), ("T", RVal.sect [("B", Val.str "2")])]] :=
  ⟨rfl, C1_theorem "ACN: 2" "T" "A : 1" "B : 2" _ rfl⟩

/-- C5 (amended): in a section whose key/value lines never carry the label
`"text"`, applying the data lines succeeds, and after the flatten step the
section has no `"text"` key when it received zero narrative lines, and
carries the newline-join of its narrative lines, in order, otherwise.
The closed conjunct shows the accumulation across two data blocks of one
record end to end. -/
theorem C5_theorem :
    (∀ lines : List String, lines.all lineNotTextLabel = true →
      ∃ d, applyLines [] lines = .ok d ∧
        ((lines.filter (fun l => (kvSplit l).isNone)) = [] →
          alookup (flattenSection d) "text" = none) ∧
        (∀ n ns, lines.filter (fun l => (kvSplit l).isNone) = n :: ns →
          alookup (flattenSection d) "text" =
            some (Val.str (pyJoin "\n" (n :: ns))))) ∧
    extractRecords [Node.heading "ACN: 4", Node.sectionMark "S",
        Node.dataBlock "alpha<br>K : 1", Node.dataBlock "beta"] =
      .ok [[("ACN", RVal.str "4"),
            ("S", RVal.sect [("text", Val.str "alpha\nbeta"),
                             ("K", Val.str "1")])]] := by
  refine ⟨?_, rfl⟩
  intro lines hall
  obtain ⟨d, hrun, htext⟩ := applyLines_text lines [] [] hall
    (by simp [alookup, optText])
  refine ⟨d, hrun, ?_, ?_⟩
  · intro hfil
    have h0 : alookup d "text" = optText [] := by
      rw [htext, hfil]
      rfl
    simpa using flattenSection_text d [] h0
  · intro n ns hfil
    have h0 : alookup d "text" = optText (n :: ns) := by
      rw [htext, hfil]
      rfl
    simpa using flattenSection_text d (n :: ns) h0

/-- Witness for C5 (amended): two narrative lines around a key/value line
accumulate in order and flatten to a newline-joined string. -/
theorem C5_witness :
    (["one", "B : 2", "two"].all lineNotTextLabel = true) ∧
    applyLines [] ["one", "B : 2", "two"] =
      .ok [("text", Val.list ["one", "two"]), ("B", Val.str "2")] ∧
    alookup (flattenSection [("text", Val.list ["one", "two"]),
        ("B", Val.str "2")]) "text" = some (Val.str "one\ntwo") := by
  refine ⟨rfl, rfl, ?_⟩
  obtain ⟨d, hrun, _, hcons⟩ := C5_theorem.1 ["one", "B : 2", "two"] rfl
  have h2 := hrun
  rw [show applyLines [] ["one", "B : 2", "two"] =
      Except.ok [("text", Val.list ["one", "two"]), ("B", Val.str "2")]
    from rfl] at h2
  injection h2 with h3
  rw [← h3] at hcons
  simpa using hcons "one" ["two"] rfl

/-- C6 (amended): raw logical lines whose `strip()` is empty are dropped
before classification, and every kept line's extracted plain text is
trimmed at both ends (markup stripped, fragments joined by single spaces);
however — per the counterexample — a markup-only line survives the drop
filter and extracts to the empty string. -/
theorem C6_theorem :
    (∀ (rs : List String) (l : String), pyStrip l = "" →
      parseLines (l :: rs) = parseLines rs) ∧
    (∀ (raw l : String), l ∈ parseAcndataBlock raw → pyStrip l = l) := by
  constructor
  · intro rs l h
    simp [parseLines, List.filter_cons, h]
  · intro raw l hmem
    rw [parseAcndataBlock, parseLines] at hmem
    obtain ⟨x, _, hx⟩ := List.mem_map.mp hmem
    rw [← hx]
    exact pyGetText_strip_fixed x

/-- Witness for C6 (amended): a whitespace-only raw line is dropped, and a
kept key/value line is already trimmed. -/
theorem C6_witness :
    parseLines ["  ", "a : b"] = parseLines ["a : b"] ∧
    pyStrip "A : 1" = "A : 1" := by
  constructor
  · exact C6_theorem.1 ["a : b"] "  " rfl
  · exact C6_theorem.2 "A : 1" "A : 1"
      (by rw [show parseAcndataBlock "A : 1" = ["A : 1"] from rfl]; simp)

/-- C2 (amended): malformed or missing markers degrade gracefully except
for exactly two in-document raise conditions — a heading whose colon is
followed by no whitespace-delimited token (`IndexError`, line 50), and a
narrative line arriving while the current section's reserved `"text"`
entry holds a scalar left by a `text : v` key/value line (`AttributeError`,
line 75). First: every run returns a record list or fails with one of
those two errors, so no other exception escapes the extractor. Second: a
document passing the `docSafe` scan — which flags precisely those two
conditions — extracts without raising. -/
theorem C2_theorem :
    (∀ nodes : List Node,
      (∃ rs, extractRecords nodes = .ok rs) ∨
      extractRecords nodes = .error "IndexError: list index out of range" ∨
      extractRecords nodes =
        .error "AttributeError: str object has no attribute append") ∧
    (∀ nodes : List Node, docSafe nodes = true →
      ∃ rs, extractRecords nodes = .ok rs) := by
  constructor
  · intro nodes
    rcases buildRecords_err (splitRecordsAux none nodes) with h | h | h
    · exact Or.inl (by simpa [extractRecords] using h)
    · exact Or.inr (Or.inl (by simpa [extractRecords] using h))
    · exact Or.inr (Or.inr (by simpa [extractRecords] using h))
  · intro nodes hsafe
    rw [docSafe] at hsafe
    have hps := scan_split nodes none ScanSt.outside rfl hsafe
    have hnh := splitRecords_noHeading nodes none
      (fun t acc h => by simp at h)
    obtain ⟨rs, hrs⟩ := buildRecords_safe _ hps hnh
    exact ⟨rs, by simpa [extractRecords] using hrs⟩

/-- Witness for C2 (amended): a document containing a `text : v` key/value
line — banned by no safety condition as long as no narrative follows while
the scalar is in place — passes `docSafe` and extracts without raising;
its second section even promotes the scalar to a list before a narrative
line arrives. -/
theorem C2_witness :
    docSafe [Node.heading "ACN: 12", Node.sectionMark "S",
      Node.dataBlock "text : zz", Node.sectionMark "T",
      Node.dataBlock "text : a<br>text : b<br>free line"] = true ∧
    ∃ rs, extractRecords [Node.heading "ACN: 12", Node.sectionMark "S",
      Node.dataBlock "text : zz", Node.sectionMark "T",
      Node.dataBlock "text : a<br>text : b<br>free line"] = .ok rs :=
  ⟨rfl, C2_theorem.2 _ rfl⟩

/-- C9 (amended): under pairwise-distinct string identifiers, two
classifier runs over (possibly overlapping) valid ranges against the same
output merge by identifier: record counts are preserved, every index
processed by the second run carries the second run's classification of the
current master record, indices processed only by the first run keep the
first run's result, and untouched records equal the inputs — so no record
is duplicated or lost. -/
theorem C9_theorem (svc1 svc2 : String → SvcResult) (field : String)
    (incidents out1 out2 : List PRec) (s1 e1 s2 e2 : Nat) (g : Nat → String)
    (hacn : ∀ i, i < incidents.length →
      alookup (incidents.getD i []) "ACN" = some (PyVal.vstr (g i)))
    (hinj : ∀ i j, i < incidents.length → j < incidents.length →
      g i = g j → i = j)
    (h1se : s1 < e1) (h1en : e1 ≤ incidents.length)
    (h2se : s2 < e2) (h2en : e2 ≤ incidents.length)
    (hrun1 : mainRun svc1 field incidents none s1 e1 = .ok out1)
    (hrun2 : mainRun svc2 field incidents (some out1) s2 e2 = .ok out2) :
    out1.length = incidents.length ∧ out2.length = incidents.length ∧
    ∀ i, i < incidents.length →
      ((s2 ≤ i ∧ i < e2) →
        ∃ p, processIncident svc2 field (out1.getD i []) = .ok p ∧
          out2.getD i [] = p.1) ∧
      (¬(s2 ≤ i ∧ i < e2) → out2.getD i [] = out1.getD i []) ∧
      ((s1 ≤ i ∧ i < e1) →
        ∃ p, processIncident svc1 field (incidents.getD i []) = .ok p ∧
          out1.getD i [] = p.1) ∧
      (¬(s1 ≤ i ∧ i < e1) → out1.getD i [] = incidents.getD i []) := by
  have hrun1' : mainRun svc1 field incidents (some incidents) s1 e1 =
      .ok out1 := hrun1
  obtain ⟨hl1, hp1, hu1⟩ := mainRun_spec svc1 field incidents incidents out1
    s1 e1 g rfl hacn hacn hinj h1se h1en hrun1'
  have hacn1 : ∀ i, i < out1.length →
      alookup (out1.getD i []) "ACN" = some (PyVal.vstr (g i)) := by
    intro i hi
    rw [hl1] at hi
    by_cases hcase : s1 ≤ i ∧ i < e1
    · obtain ⟨p, hp, hout⟩ := hp1 i hcase.1 hcase.2
      rw [hout, processIncident_acn svc1 field _ p hp]
      exact hacn i hi
    · rw [hu1 i (by omega)]
      exact hacn i hi
  have hinj1 : ∀ i j, i < out1.length → j < out1.length →
      g i = g j → i = j := by
    intro i j hi hj
    rw [hl1] at hi hj
    exact hinj i j hi hj
  obtain ⟨hl2, hp2, hu2⟩ := mainRun_spec svc2 field incidents out1 out2
    s2 e2 g hl1 hacn hacn1 hinj1 h2se h2en hrun2
  refine ⟨hl1, by rw [hl2, hl1], ?_⟩
  intro i hi
  refine ⟨?_, ?_, ?_, ?_⟩
  · intro hcase
    exact hp2 i hcase.1 hcase.2
  · intro hcase
    exact hu2 i (by omega)
  · intro hcase
    exact hp1 i hcase.1 hcase.2
  · intro hcase
    exact hu1 i (by omega)

/-- Witness for C9 (amended): two records with distinct identifiers, two
disjoint runs; both runs preserve the record count. -/
theorem C9_witness :
    ([[("ACN", PyVal.vstr "7"), ("N", PyVal.vstr "hello"),
       ("hfacs_classification", PyVal.vlist [])],
      [("ACN", PyVal.vstr "8"), ("N", PyVal.vstr "")]] : List PRec).length =
      ([[("ACN", PyVal.vstr "7"), ("N", PyVal.vstr "hello")],
        [("ACN", PyVal.vstr "8"), ("N", PyVal.vstr "")]] : List PRec).length ∧
    ([[("ACN", PyVal.vstr "7"), ("N", PyVal.vstr "hello"),
       ("hfacs_classification", PyVal.vlist [])],
      [("ACN", PyVal.vstr "8"), ("N", PyVal.vstr ""),
       ("hfacs_classification", PyVal.vlist [])]] : List PRec).length =
      ([[("ACN", PyVal.vstr "7"), ("N", PyVal.vstr "hello")],
        [("ACN", PyVal.vstr "8"), ("N", PyVal.vstr "")]] : List PRec).length := by
  have h := C9_theorem (fun _ => SvcResult.ok "[]" 1)
    (fun _ => SvcResult.ok "[]" 1) "N"
    [[("ACN", PyVal.vstr "7"), ("N", PyVal.vstr "hello")],
     [("ACN", PyVal.vstr "8"), ("N", PyVal.vstr "")]]
    [[("ACN", PyVal.vstr "7"), ("N", PyVal.vstr "hello"),
      ("hfacs_classification", PyVal.vlist [])],
     [("ACN", PyVal.vstr "8"), ("N", PyVal.vstr "")]]
    [[("ACN", PyVal.vstr "7"), ("N", PyVal.vstr "hello"),
      ("hfacs_classification", PyVal.vlist [])],
     [("ACN", PyVal.vstr "8"), ("N", PyVal.vstr ""),
      ("hfacs_classification", PyVal.vlist [])]]
    0 1 1 2 (fun i => if i = 0 then "7" else "8")
    (by intro i hi
        have hi2 : i < 2 := hi
        interval_cases i <;> rfl)
    (by intro i j hi hj he
        have hi2 : i < 2 := hi
        have hj2 : j < 2 := hj
        interval_cases i <;> interval_cases j <;> revert he <;> decide)
    (by omega) (by decide) (by omega) (by decide) rfl rfl
  exact ⟨h.1, h.2.1⟩

/-- Witness for C4: the claim's concrete heading yields the identifier
`"2184152"`, discarding the `(1 of 91)` counter. -/
theorem C4_witness :
    buildRecord "ACN: 2184152 (1 of 91)" [Node.sectionMark "Place"] =
      .ok [("ACN", RVal.str "2184152"), ("Place", RVal.sect [])] ∧
    alookup [("ACN", RVal.str "2184152"), ("Place", RVal.sect [])] "ACN" =
      some (RVal.str "2184152") := by
  refine ⟨rfl, ?_⟩
  have h4 := C4_theorem "ACN: 2184152 (1 of 91)" [Node.sectionMark "Place"]
    [("ACN", RVal.str "2184152"), ("Place", RVal.sect [])] rfl rfl
  exact h4.1 "2184152" ["(1", "of", "91)"] rfl rfl

end Asrs
